import Mathlib

/- Verification development for the lxd-port-forward repository: a shallow
   embedding of the forward package (forward.go and iptables.go) together with
   the relevant behavior of its external collaborators (the go-iptables
   backend and the LXD client), and theorems about the embedded operations. -/

namespace LxdPortForward

/-- Association-list lookup, used to model Go map indexing (entry order is
irrelevant for lookups because Go map keys are unique). -/
def alookup {α β : Type} [DecidableEq α] (k : α) : List (α × β) → Option β
  | [] => none
  | (k1, v) :: rest => if k1 = k then some v else alookup k rest

/-- Model of strings.Join from the Go standard library. -/
def goJoin : List String → String → String
  | [], _ => ""
  | [x], _ => x
  | x :: y :: rest, sep => x ++ sep ++ goJoin (y :: rest) sep

/-- Does the first character list occur as a prefix of the second. -/
def prefixAt : List Char → List Char → Bool
  | [], _ => true
  | _ :: _, [] => false
  | a :: as, b :: bs => a == b && prefixAt as bs

/-- Helper for containsSub: does sub occur anywhere in the list. -/
def containsSubAux (sub : List Char) : List Char → Bool
  | [] => sub.isEmpty
  | c :: rest => prefixAt sub (c :: rest) || containsSubAux sub rest

/-- Model of strings.Contains from the Go standard library. -/
def containsSub (s sub : String) : Bool := containsSubAux sub.data s.data

/-- Accumulator loop for goAtoi over decimal digits. -/
def digitsAux (acc : Nat) : List Char → Option Nat
  | [] => some acc
  | c :: rest => if c.isDigit then digitsAux (acc * 10 + (c.toNat - 48)) rest else none

/-- Parse a nonempty all-digit character list. -/
def parseDigits : List Char → Option Nat
  | [] => none
  | l => digitsAux 0 l

/-- Largest value of the 64-bit Go int type. -/
def maxInt64 : Nat := 9223372036854775807

/-- Model of strconv.Atoi from the Go standard library on a 64-bit platform:
an optional sign followed by at least one decimal digit, rejected when the
value falls outside the int64 range. -/
def goAtoi (s : String) : Option Int :=
  match s.data with
  | [] => none
  | c :: rest =>
    if c = '+' then
      (parseDigits rest).bind (fun n => if n ≤ maxInt64 then some (Int.ofNat n) else none)
    else if c = '-' then
      (parseDigits rest).bind (fun n => if n ≤ maxInt64 + 1 then some (-(Int.ofNat n)) else none)
    else
      (parseDigits (c :: rest)).bind (fun n => if n ≤ maxInt64 then some (Int.ofNat n) else none)

/-- An iptables rule is the literal argument vector handed to the backend. -/
abbrev Rule := List String

/-- A chain is addressed by table name and chain name. -/
abbrev ChainKey := String × String

/-- State of one iptables backend: the existing chains of its tables with
their ordered rule lists. -/
structure IPTState where
  chains : List (ChainKey × List Rule)
deriving DecidableEq

/-- The backend calls issued by the engine, as data (go-iptables methods). -/
inductive IPTOp
  | newChain (table chain : String)
  | insert (table chain : String) (pos : Nat) (rule : Rule)
  | append (table chain : String) (rule : Rule)
  | delete (table chain : String) (rule : Rule)
  | clearChain (table chain : String)
  | deleteChain (table chain : String)
deriving DecidableEq

/-- Error outcomes of backend calls (iptables command failures), plus
envFault for an injected environment failure of a call: the backend is an
external collaborator whose calls may also fail for reasons outside the
rule-table semantics. -/
inductive IPTErr
  | chainExists
  | noChain
  | badPosition
  | badRule
  | chainNotEmpty
  | chainReferenced
  | envFault
deriving DecidableEq

def IPTState.find (st : IPTState) (t c : String) : Option (List Rule) :=
  alookup (t, c) st.chains

def IPTState.hasChain (st : IPTState) (t c : String) : Bool :=
  (st.find t c).isSome

def IPTState.ruleIn (st : IPTState) (t c : String) (r : Rule) : Bool :=
  match st.find t c with
  | none => false
  | some rs => decide (r ∈ rs)

/-- Replace the rules of the keyed chain, creating the chain when absent. -/
def setChainAux (k : ChainKey) (rs : List Rule) : List (ChainKey × List Rule) → List (ChainKey × List Rule)
  | [] => [(k, rs)]
  | (k1, rs1) :: rest => if k1 = k then (k1, rs) :: rest else (k1, rs1) :: setChainAux k rs rest

def IPTState.setChain (st : IPTState) (t c : String) (rs : List Rule) : IPTState :=
  ⟨setChainAux (t, c) rs st.chains⟩

def removeChainAux (k : ChainKey) : List (ChainKey × List Rule) → List (ChainKey × List Rule)
  | [] => []
  | (k1, rs1) :: rest => if k1 = k then rest else (k1, rs1) :: removeChainAux k rest

/-- Remove the first occurrence of a rule from a rule list. -/
def removeFirst (x : Rule) : List Rule → List Rule
  | [] => []
  | r :: rest => if r = x then rest else r :: removeFirst x rest

/-- Does the rule jump to the named chain (a -j argument followed by it). -/
def jumpsTo (r : Rule) (c : String) : Bool :=
  match r with
  | a :: b :: rest => (a == "-j" && b == c) || jumpsTo (b :: rest) c
  | _ => false

/-- Is the named chain the jump target of any rule in the backend state. -/
def IPTState.referenced (st : IPTState) (c : String) : Bool :=
  st.chains.any (fun e => e.2.any (fun r => jumpsTo r c))

/-- Semantics of one backend call against one backend state, following
go-iptables over iptables: creating an existing chain fails; Insert and
Append require the chain; Delete requires the chain and the rule, removing
the first occurrence of the rule; ClearChain flushes the chain, creating it
when absent, and does not fail; DeleteChain requires an existing, empty and
unreferenced chain. -/
def applyOp : IPTOp → IPTState → Except IPTErr IPTState
  | .newChain t c, st =>
    if st.hasChain t c then .error .chainExists else .ok ⟨st.chains ++ [((t, c), [])]⟩
  | .insert t c pos r, st =>
    match st.find t c with
    | none => .error .noChain
    | some rs =>
      if pos = 0 || rs.length + 1 < pos then .error .badPosition
      else .ok (st.setChain t c (rs.take (pos - 1) ++ r :: rs.drop (pos - 1)))
  | .append t c r, st =>
    match st.find t c with
    | none => .error .noChain
    | some rs => .ok (st.setChain t c (rs ++ [r]))
  | .delete t c r, st =>
    match st.find t c with
    | none => .error .noChain
    | some rs => if r ∈ rs then .ok (st.setChain t c (removeFirst r rs)) else .error .badRule
  | .clearChain t c, st => .ok (st.setChain t c [])
  | .deleteChain t c, st =>
    match st.find t c with
    | none => .error .noChain
    | some rs =>
      if rs.isEmpty then
        if st.referenced c then .error .chainReferenced else .ok ⟨removeChainAux (t, c) st.chains⟩
      else .error .chainNotEmpty

/-- IPVersion from iptables.go: selects the iptables or ip6tables backend. -/
inductive IPVersion
  | IPv4
  | IPv6
deriving DecidableEq

/-- Engine-level calls, recorded so that theorems can state which engine
operations were invoked. -/
inductive EngineCall
  | forwardContainer (container : String)
  | reverseContainer (container : String)
deriving DecidableEq

/-- Combined world state: the IPv4 and IPv6 backend states, the trace of
issued backend calls, the injected environment faults (indices of backend
calls that fail for external reasons), the count of backend calls issued so
far, and the trace of engine calls. -/
structure BState where
  v4 : IPTState
  v6 : IPTState
  trace : List (IPVersion × IPTOp)
  faults : List Nat
  calls : Nat
  ecalls : List EngineCall
deriving DecidableEq

def BState.backend (s : BState) : IPVersion → IPTState
  | .IPv4 => s.v4
  | .IPv6 => s.v6

def BState.setBackend (s : BState) : IPVersion → IPTState → BState
  | .IPv4, st => { s with v4 := st }
  | .IPv6, st => { s with v6 := st }

/-- Record one issued backend call: it enters the trace and consumes a call
index whether it succeeds or not. -/
def bump (ver : IPVersion) (op : IPTOp) (s : BState) : BState :=
  { s with calls := s.calls + 1, trace := s.trace ++ [(ver, op)] }

/-- Issue one backend call against the selected backend: the call is traced,
and it either suffers an injected environment fault or follows applyOp. -/
def doOp (ver : IPVersion) (op : IPTOp) (s : BState) : Option IPTErr × BState :=
  if s.calls ∈ s.faults then (some .envFault, bump ver op s)
  else
    match applyOp op (s.backend ver) with
    | .ok st => (none, (bump ver op s).setBackend ver st)
    | .error e => (some e, bump ver op s)

/-- PortMappings from forward.go: one protocol block for a container, with
host ports (string keys) mapped to container ports. The Go Ports map is
modelled as an association list. -/
structure PortMappings where
  name : String
  protocol : String
  ports : List (String × Int)
deriving DecidableEq

/-- Config from forward.go: container name to its list of PortMappings. -/
structure Config where
  forwards : List (String × List PortMappings)
deriving DecidableEq

/-- Loop over the host-port keys of one PortMappings value, from
Config.Validate in forward.go. The pf argument is the range copy of the
slice element; the source assignment of the container name to the Name field
updates only that local copy, modelled by the pf1 binding. The seen
accumulator models the hostPorts set. -/
def checkPortsLoop (container : String) : List String → PortMappings → List (String × Int) → Except String (List String)
  | seen, _, [] => .ok seen
  | seen, pf, (hPort, _) :: rest =>
    match goAtoi hPort with
    | none => .error ("Invalid port " ++ hPort ++ " provided for container " ++ container)
    | some _ =>
      let fullPort := pf.protocol ++ ":" ++ hPort
      if fullPort ∈ seen then .error ("Port " ++ fullPort ++ " has already been mapped")
      else
        let pf1 : PortMappings := { pf with name := container }
        checkPortsLoop container (fullPort :: seen) pf1 rest

/-- Loop over the PortMappings of one container in Config.Validate. -/
def checkMappings (container : String) : List String → List PortMappings → Except String (List String)
  | seen, [] => .ok seen
  | seen, pf :: rest =>
    if pf.ports.isEmpty then .error ("No ports provided for container " ++ container)
    else
      match checkPortsLoop container seen pf pf.ports with
      | .error e => .error e
      | .ok seen1 => checkMappings container seen1 rest

/-- Outer loop of Config.Validate over all containers. -/
def checkForwards : List String → List (String × List PortMappings) → Except String (List String)
  | seen, [] => .ok seen
  | seen, (container, pfs) :: rest =>
    match checkMappings container seen pfs with
    | .error e => .error e
    | .ok seen1 => checkForwards seen1 rest

/-- Config.Validate from forward.go, with the Go error modelled as an
Option String. -/
def Config.Validate (c : Config) : Bool × Option String :=
  match checkForwards [] c.forwards with
  | .ok _ => (true, none)
  | .error e => (false, some e)

/-- Variant of the Validate loops that also returns the container slices as
Go leaves them after iteration: range yields element copies and the source
never writes an element back, so every original element is retained. -/
def runMappings (container : String) : List String → List PortMappings → Except String (List String) × List PortMappings
  | seen, [] => (.ok seen, [])
  | seen, pf :: rest =>
    if pf.ports.isEmpty then (.error ("No ports provided for container " ++ container), pf :: rest)
    else
      match checkPortsLoop container seen pf pf.ports with
      | .error e => (.error e, pf :: rest)
      | .ok seen1 =>
        let r := runMappings container seen1 rest
        (r.1, pf :: r.2)

/-- Outer loop of the ValidateRun variant. -/
def runForwards : List String → List (String × List PortMappings) → Except String (List String) × List (String × List PortMappings)
  | seen, [] => (.ok seen, [])
  | seen, (container, pfs) :: rest =>
    match runMappings container seen pfs with
    | (.error e, pfs1) => (.error e, (container, pfs1) :: rest)
    | (.ok seen1, pfs1) =>
      let r := runForwards seen1 rest
      (r.1, (container, pfs1) :: r.2)

/-- Config.Validate together with the config as it stands after the
validation loops have run (observing that Go range copies elements). -/
def Config.ValidateRun (c : Config) : (Bool × Option String) × Config :=
  match runForwards [] c.forwards with
  | (.ok _, fs) => ((true, none), ⟨fs⟩)
  | (.error e, fs) => ((false, some e), ⟨fs⟩)

/-- Direction from iptables.go. -/
inductive Direction
  | Dst
  | Src
deriving DecidableEq

/-- The String method of Direction from iptables.go; the default branch of
the source switch is unreachable for the two declared values. -/
def Direction.asString : Direction → String
  | .Dst => "dst"
  | .Src => "src"

/-- The getChain function of iptables.go: Sprintf of LXD-container-direction. -/
def getChain (container : String) (dir : Direction) : String :=
  "LXD-" ++ container ++ "-" ++ dir.asString

/-- The getChain function of forward.go: the single custom chain actually
used by ForwardContainer and ReverseContainer. -/
def getChainFwd (container : String) : String := "LXD-" ++ container

/-- IPTable constant from forward.go. -/
def IPTable : String := "nat"

/-- ContainerStarted constant from forward.go. -/
def ContainerStarted : String := "ContainerStart"

/-- ContainerStopped constant from forward.go. -/
def ContainerStopped : String := "ContainerStop"

/-- One address of a container network interface, as reported by LXD. -/
structure Address where
  family : String
  address : String
deriving DecidableEq

/-- One network interface of a container, as reported by LXD. -/
structure Network where
  addresses : List Address
deriving DecidableEq

/-- The container state returned by the LXD client: interface name to
network information. -/
structure ContainerState where
  network : List (String × Network)
deriving DecidableEq

/-- Forwarder from forward.go. The embedded LXD client is an external
collaborator, modelled by its observable behavior: the container-state query
as a response function. -/
structure Forwarder where
  config : Config
  containerState : String → Except String ContainerState

/-- Errors surfaced by the engine operations. -/
inductive FErr
  | noRules (container : String)
  | stateErr (container : String) (err : String)
  | ipt (e : IPTErr)
deriving DecidableEq

/-- The address-collection loop of ForwardContainer: interfaces whose name
contains eth or enp contribute their addresses of the requested family. -/
def addrsOfFamily (fam : String) : List (String × Network) → List String
  | [] => []
  | (name, nw) :: rest =>
    if containsSub name "eth" || containsSub name "enp" then
      nw.addresses.filterMap (fun a => if a.family = fam then some a.address else none)
        ++ addrsOfFamily fam rest
    else addrsOfFamily fam rest

/-- The PREROUTING hook rule used by forward.go for a custom chain. -/
def hookRuleFwd (cc : String) : Rule :=
  ["-m", "addrtype", "--dst-type", "LOCAL", "-j", cc]

/-- The IPv4 DNAT rule of forward.go. -/
def dnat4Rule (protocol hostPort address : String) (containerPort : Int) : Rule :=
  ["-p", protocol, "--dport", hostPort, "-j", "DNAT", "--to", address ++ ":" ++ toString containerPort]

/-- The IPv6 DNAT rule of forward.go (the address is bracketed). -/
def dnat6Rule (protocol hostPort address : String) (containerPort : Int) : Rule :=
  ["-p", protocol, "--dport", hostPort, "-j", "DNAT", "--to", "[" ++ address ++ "]:" ++ toString containerPort]

/-- Tag recorded when ForwardContainer is entered. -/
def fwdEntry (container : String) (s : BState) : BState :=
  { s with ecalls := s.ecalls ++ [EngineCall.forwardContainer container] }

/-- Tag recorded when ReverseContainer is entered. -/
def revEntry (container : String) (s : BState) : BState :=
  { s with ecalls := s.ecalls ++ [EngineCall.reverseContainer container] }

/-- Sequencing of guarded backend calls: when the accumulated computation
has already failed, its error and state are kept (the source returns early);
otherwise the next call is issued. -/
def seqOp (ver : IPVersion) (op : IPTOp) (r : Option IPTErr × BState) : Option IPTErr × BState :=
  match r with
  | (some e, s) => (some e, s)
  | (none, s) => doOp ver op s

/-- The chain and hook setup phase of ForwardContainer: create the custom
chain in both backends, then insert the hook rule at position 1 of
PREROUTING in both backends. Each of the four calls has its error checked in
the source, so the phase stops at the first failing call. -/
def setupChains (cc : String) (s : BState) : Option IPTErr × BState :=
  seqOp .IPv6 (.insert IPTable "PREROUTING" 1 (hookRuleFwd cc))
    (seqOp .IPv4 (.insert IPTable "PREROUTING" 1 (hookRuleFwd cc))
      (seqOp .IPv6 (.newChain IPTable cc)
        (doOp .IPv4 (.newChain IPTable cc) s)))

/-- Append one rule per address into the custom chain; the source discards
the error results of these Append calls. -/
def appendLoop (ver : IPVersion) (cc : String) (mk : String → Rule) : List String → BState → BState
  | [], s => s
  | a :: rest, s => appendLoop ver cc mk rest (doOp ver (.append IPTable cc (mk a)) s).2

/-- The per-port rule loop of ForwardContainer over one PortMappings value:
for every host-port key, a DNAT append per IPv4 address, then one per IPv6
address. -/
def applyPorts (protocol cc : String) (ip4 ip6 : List String) : List (String × Int) → BState → BState
  | [], s => s
  | (hostPort, containerPort) :: rest, s =>
    let s1 := appendLoop .IPv4 cc (fun a => dnat4Rule protocol hostPort a containerPort) ip4 s
    let s2 := appendLoop .IPv6 cc (fun a => dnat6Rule protocol hostPort a containerPort) ip6 s1
    applyPorts protocol cc ip4 ip6 rest s2

/-- The outer rule loop of ForwardContainer over all PortMappings of the
container. -/
def applyMappings (cc : String) (ip4 ip6 : List String) : List PortMappings → BState → BState
  | [], s => s
  | pf :: rest, s => applyMappings cc ip4 ip6 rest (applyPorts pf.protocol cc ip4 ip6 pf.ports s)

/-- ForwardContainer from forward.go: look up the config entry, query the
container state from LXD, collect addresses per family, create the custom
chain and the PREROUTING hook in both backends (each error checked), then
append the per-port DNAT rules (errors of those appends discarded). -/
def Forwarder.ForwardContainer (f : Forwarder) (container : String) (s : BState) : Option FErr × BState :=
  match alookup container f.config.forwards with
  | none => (some (.noRules container), fwdEntry container s)
  | some pfs =>
    match f.containerState container with
    | .error e => (some (.stateErr container e), fwdEntry container s)
    | .ok st =>
      match (setupChains (getChainFwd container) (fwdEntry container s)).1 with
      | some e => (some (.ipt e), (setupChains (getChainFwd container) (fwdEntry container s)).2)
      | none =>
        (none, applyMappings (getChainFwd container)
          (addrsOfFamily "inet" st.network) (addrsOfFamily "inet6" st.network) pfs
          (setupChains (getChainFwd container) (fwdEntry container s)).2)

/-- The guarded deletion phase of ReverseContainer: delete the PREROUTING
hook rule from both backends, stopping at the first failing call (each of
the two Delete results is checked in the source). -/
def revDeletes (container : String) (s : BState) : Option IPTErr × BState :=
  seqOp .IPv6 (.delete IPTable "PREROUTING" (hookRuleFwd (getChainFwd container)))
    (doOp .IPv4 (.delete IPTable "PREROUTING" (hookRuleFwd (getChainFwd container))) (revEntry container s))

/-- The unguarded teardown phase of ReverseContainer: clear then delete the
custom chain in the IPv4 backend, then in the IPv6 backend; the source
discards all four results. -/
def teardownPhase (cc : String) (s : BState) : BState :=
  (doOp .IPv6 (.deleteChain IPTable cc)
    ((doOp .IPv6 (.clearChain IPTable cc)
      ((doOp .IPv4 (.deleteChain IPTable cc)
        ((doOp .IPv4 (.clearChain IPTable cc) s).2)).2)).2)).2

/-- ReverseContainer from forward.go: delete the PREROUTING hook rule from
both backends (each error checked and returned), then clear and delete the
custom chain in both backends with those four results discarded. -/
def Forwarder.ReverseContainer (f : Forwarder) (container : String) (s : BState) : Option FErr × BState :=
  match (revDeletes container s).1 with
  | some e => (some (.ipt e), (revDeletes container s).2)
  | none => (none, teardownPhase (getChainFwd container) (revDeletes container s).2)

/-- The loop of Forward from forward.go: call ForwardContainer for every
configured container and collect the names of those whose call failed. -/
def forwardLoop (f : Forwarder) : List (String × List PortMappings) → BState → List String × BState
  | [], s => ([], s)
  | (w, _) :: rest, s =>
    let r1 := f.ForwardContainer w s
    let r2 := forwardLoop f rest r1.2
    ((match r1.1 with
      | some _ => w :: r2.1
      | none => r2.1), r2.2)

/-- Forward from forward.go: try every configured container, and aggregate
the names of the failing ones into a single error. -/
def Forwarder.Forward (f : Forwarder) (s : BState) : Option String × BState :=
  let r := forwardLoop f f.config.forwards s
  ((if r.1.isEmpty then none
    else some ("Unable to forward ports for containers " ++ goJoin r.1 ", ")), r.2)

/-- Analysis companion of forwardLoop: record each invoked container with the
outcome of its ForwardContainer call at its turn in the sequence. -/
def forwardResults (f : Forwarder) : List (String × List PortMappings) → BState → List (String × Option FErr) × BState
  | [], s => ([], s)
  | (w, _) :: rest, s =>
    let r1 := f.ForwardContainer w s
    let r2 := forwardResults f rest r1.2
    ((w, r1.1) :: r2.1, r2.2)

/-- The containers of a result list whose call failed, in order. -/
def failedNames (rs : List (String × Option FErr)) : List String :=
  (rs.filter (fun p => p.2.isSome)).map (fun p => p.1)

/-- Dynamic Go values as delivered to the lifecycle event handler: the
handler receives an interface value holding nested maps and strings. -/
inductive GoVal
  | vnil
  | vstr (s : String)
  | vint (n : Int)
  | vmap (entries : List (String × GoVal))

/-- Go map indexing on interface-valued maps: a missing key yields the nil
interface value. -/
def goGet (m : List (String × GoVal)) (k : String) : GoVal :=
  (alookup k m).getD .vnil

/-- The single-result Go type assertion to a string-keyed map: it panics
(modelled as an error) unless the value is such a map. -/
def assertMap : GoVal → Except Unit (List (String × GoVal))
  | .vmap m => .ok m
  | _ => .error ()

/-- The single-result Go type assertion to a string. -/
def assertStr : GoVal → Except Unit String
  | .vstr s => .ok s
  | _ => .error ()

def isMapVal : GoVal → Bool
  | .vmap _ => true
  | _ => false

def isStrVal : GoVal → Bool
  | .vstr _ => true
  | _ => false

/-- The event handler closure inside Watch in forward.go. The error result
models a Go runtime panic from a failed type assertion; the ok result tells
which engine call the handler performs (none when the event is discarded).
Mirrors the source exactly: the record and its metadata field are asserted
unconditionally; context, container and message are read with the comma-ok
pattern and asserted only when present; an absent context leaves the nil
map, whose indexing yields not-ok; an unconfigured container name skips the
message handling entirely. -/
def watchHandler (f : Forwarder) (i : GoVal) : Except Unit (Option EngineCall) :=
  match assertMap i with
  | .error _ => .error ()
  | .ok data =>
    match assertMap (goGet data "metadata") with
    | .error _ => .error ()
    | .ok metadata =>
      match (match alookup "context" metadata with
             | some tmp => assertMap tmp
             | none => .ok ([] : List (String × GoVal))) with
      | .error _ => .error ()
      | .ok context =>
        match (match alookup "container" context with
               | some tmp => assertStr tmp
               | none => .ok "") with
        | .error _ => .error ()
        | .ok container =>
          match alookup container f.config.forwards with
          | none => .ok none
          | some _ =>
            match (match alookup "message" metadata with
                   | some tmp => assertStr tmp
                   | none => .ok "") with
            | .error _ => .error ()
            | .ok message =>
              if message = ContainerStarted then .ok (some (.forwardContainer container))
              else if message = ContainerStopped then .ok (some (.reverseContainer container))
              else .ok none

/- Concrete instances used by counterexamples and witnesses. -/

/-- The scenario mapping: tcp host port 8080 to container port 80. -/
def webMapping : PortMappings := { name := "", protocol := "tcp", ports := [("8080", 80)] }

/-- The scenario config: container web with the single mapping. -/
def webConfig : Config := { forwards := [("web", [webMapping])] }

/-- The scenario container state: one eth0 interface with one IPv4 address
and no IPv6 address. -/
def webState : ContainerState :=
  { network := [("eth0", { addresses := [{ family := "inet", address := "10.0.3.5" }] })] }

/-- The scenario forwarder: the LXD client answers for web only. -/
def webForwarder : Forwarder :=
  { config := webConfig
    containerState := fun c => if c = "web" then .ok webState else .error "no state" }

/-- A backend state holding only the built-in PREROUTING chain of the nat
table, empty. -/
def natBase : IPTState := { chains := [(("nat", "PREROUTING"), [])] }

/-- The initial world: both backends fresh, no trace, no faults. -/
def initState : BState :=
  { v4 := natBase, v6 := natBase, trace := [], faults := [], calls := 0, ecalls := [] }

/-- World state after forwarding web once from the initial world. -/
def webAfterForward : BState := (webForwarder.ForwardContainer "web" initState).2

/-- Container state with two IPv4 addresses, used to exhibit the handling of
a failing Append call in the middle of the rule loop. -/
def web2State : ContainerState :=
  { network := [("eth0", { addresses := [{ family := "inet", address := "10.0.3.5" },
                                         { family := "inet", address := "10.0.3.6" }] })] }

/-- Forwarder for the two-address container. -/
def web2Forwarder : Forwarder :=
  { config := webConfig
    containerState := fun c => if c = "web" then .ok web2State else .error "no state" }

/-- Initial world in which the fifth backend call (index 4, the first DNAT
append) suffers an injected environment fault. -/
def faultState : BState := { initState with faults := [4] }

/-- Three-workload config for the aggregation scenario: a, b and c each
forward one tcp port. -/
def triConfig : Config :=
  { forwards := [("a", [{ name := "", protocol := "tcp", ports := [("1000", 10)] }]),
                 ("b", [{ name := "", protocol := "tcp", ports := [("2000", 20)] }]),
                 ("c", [{ name := "", protocol := "tcp", ports := [("3000", 30)] }])] }

/-- Forwarder for the aggregation scenario: the address lookup fails for b
only. -/
def triForwarder : Forwarder :=
  { config := triConfig
    containerState := fun c => if c = "b" then .error "lookup failed" else .ok webState }

/-- Is a traced call an Append call. -/
def isAppendOp (p : IPVersion × IPTOp) : Bool :=
  match p.2 with
  | .append _ _ _ => true
  | _ => false

/-- Backend calls that only add chains or rules and never remove anything. -/
def IPTOp.constructive : IPTOp → Bool
  | .newChain _ _ => true
  | .insert _ _ _ _ => true
  | .append _ _ _ => true
  | .delete _ _ _ => false
  | .clearChain _ _ => false
  | .deleteChain _ _ => false

/-- The container counts as forwarded in a world state: its custom chain
exists in both backends and the PREROUTING hook rule pointing at it is
present in both backends. -/
def installedFor (w : String) (s : BState) : Bool :=
  s.v4.hasChain IPTable (getChainFwd w) && s.v6.hasChain IPTable (getChainFwd w) &&
    s.v4.ruleIn IPTable "PREROUTING" (hookRuleFwd (getChainFwd w)) &&
    s.v6.ruleIn IPTable "PREROUTING" (hookRuleFwd (getChainFwd w))

/-- Every chain and rule present in the first world state is still present
in the second. -/
def persists (s s1 : BState) : Prop :=
  ∀ v1 t c, ((s.backend v1).hasChain t c = true → (s1.backend v1).hasChain t c = true) ∧
    ∀ r, (s.backend v1).ruleIn t c r = true → (s1.backend v1).ruleIn t c r = true

/-- The backend calls issued between two world states (the later trace minus
the earlier prefix). -/
def emitted (s s1 : BState) : List (IPVersion × IPTOp) :=
  s1.trace.drop s.trace.length

/-- The backend calls issued by one ReverseContainer invocation. -/
def revOps (f : Forwarder) (w : String) (s : BState) : List (IPVersion × IPTOp) :=
  emitted s (f.ReverseContainer w s).2

/-- The traced call is the deletion of the PREROUTING hook rule of the
container, against the given backend. -/
def hookDeleteFor (w : String) (v : IPVersion) (p : IPVersion × IPTOp) : Prop :=
  p = (v, .delete IPTable "PREROUTING" (hookRuleFwd (getChainFwd w)))

/-- The traced call clears or deletes the custom chain of the container,
against the given backend. -/
def teardownFor (w : String) (v : IPVersion) (p : IPVersion × IPTOp) : Prop :=
  p.1 = v ∧ (p.2 = .clearChain IPTable (getChainFwd w) ∨ p.2 = .deleteChain IPTable (getChainFwd w))

/-- Number of (port mapping, host port, address) combinations of a config
entry: the number of DNAT Append calls the rule loop issues. -/
def totalPairs : List PortMappings → List String → List String → Nat
  | [], _, _ => 0
  | pf :: rest, ip4, ip6 => pf.ports.length * (ip4.length + ip6.length) + totalPairs rest ip4 ip6

/-- Did the Except computation succeed. -/
def exOk {ε α : Type} : Except ε α → Bool
  | .ok _ => true
  | .error _ => false

/-- The protocol-and-host-port key strings of one port list, in order,
as built by the Validate loop. -/
def portKeys (protocol : String) (ports : List (String × Int)) : List String :=
  ports.map (fun p => protocol ++ ":" ++ p.1)

/-- All key strings of a list of PortMappings. -/
def mappingKeys : List PortMappings → List String
  | [] => []
  | pf :: rest => portKeys pf.protocol pf.ports ++ mappingKeys rest

/-- All key strings of a whole config. -/
def forwardKeys : List (String × List PortMappings) → List String
  | [] => []
  | (_, pfs) :: rest => mappingKeys pfs ++ forwardKeys rest

/-- The (protocol, host port) pairs of one port list. -/
def portPairs (protocol : String) (ports : List (String × Int)) : List (String × String) :=
  ports.map (fun p => (protocol, p.1))

/-- All (protocol, host port) pairs of a list of PortMappings. -/
def mappingPairs : List PortMappings → List (String × String)
  | [] => []
  | pf :: rest => portPairs pf.protocol pf.ports ++ mappingPairs rest

/-- All (protocol, host port) pairs across a whole config. -/
def forwardPairs : List (String × List PortMappings) → List (String × String)
  | [] => []
  | (_, pfs) :: rest => mappingPairs pfs ++ forwardPairs rest

/-- All (protocol, host port) pairs of a config. -/
def allPairs (c : Config) : List (String × String) := forwardPairs c.forwards

/-- Encoding of a (protocol, host port) pair as the key string used by the
Validate loop. -/
def encodePair (pr : String × String) : String := pr.1 ++ ":" ++ pr.2

/-- A PortMappings value has a non-empty port set whose host-port keys all
parse as integers. -/
def goodPorts (pf : PortMappings) : Prop :=
  pf.ports ≠ [] ∧ ∀ p ∈ pf.ports, (goAtoi p.1).isSome = true

/-- Every PortMappings of every container has good ports. -/
def GoodConfig (c : Config) : Prop :=
  ∀ wp ∈ c.forwards, ∀ pf ∈ wp.2, goodPorts pf

/-- The validity predicate of the specification: non-empty port sets, all
host-port keys parse as integers, and no (protocol, host port) pair occurs
twice across the entire configuration. -/
def ValidSpec (c : Config) : Prop :=
  GoodConfig c ∧ (allPairs c).Nodup

instance (pf : PortMappings) : Decidable (goodPorts pf) := by
  unfold goodPorts
  infer_instance

instance (c : Config) : Decidable (GoodConfig c) := by
  unfold GoodConfig
  infer_instance

instance (c : Config) : Decidable (ValidSpec c) := by
  unfold ValidSpec
  infer_instance

/-- C1 counterexample: forwarding web from the fresh world succeeds, but
forwarding it again immediately afterwards returns an error, because the
second NewChain call fails on the already-existing custom chain and
ForwardContainer returns that error instead of tolerating it. -/
theorem forwardContainer_not_idempotent :
    (webForwarder.ForwardContainer "web" initState).1 = none ∧
    (webForwarder.ForwardContainer "web" webAfterForward).1 ≠ none := by
  constructor
  · rfl
  · decide

/-- C2 counterexample: reversing the never-forwarded container web from the
fresh world returns an error, because the Delete of the absent hook rule
fails and ReverseContainer returns that error instead of treating it as a
no-op. -/
theorem reverseContainer_unforwarded_errors :
    (webForwarder.ReverseContainer "web" initState).1 ≠ none := by decide

/-- C4 counterexample: a well-typed event record that merely lacks the
metadata field makes the handler panic (the unchecked type assertion on the
nil metadata value fails), rather than being silently discarded. -/
theorem watchHandler_malformed_panics :
    watchHandler webForwarder (GoVal.vmap [("type", GoVal.vstr "logging")]) = .error () := rfl

/-- C6 counterexample: in the web scenario (tcp 8080 to 80, one IPv4
address, no IPv6 address), ForwardContainer issues two backend calls against
the IPv6 backend (a chain creation and a hook insertion), not zero. -/
theorem forwardContainer_web_v6_ops :
    ((webForwarder.ForwardContainer "web" initState).2.trace.filter
      (fun p => decide (p.1 = IPVersion.IPv6))).length = 2 ∧
    (webForwarder.ForwardContainer "web" initState).1 = none := ⟨rfl, rfl⟩

/-- C6 amended, proved on the scenario: the full ordered backend-call trace
of ForwardContainer for web. Exactly one hook insertion into the IPv4
PREROUTING chain jumping to the custom chain and exactly one DNAT append
with target 10.0.3.5:80 are issued, while the IPv6 backend receives the
chain creation and the hook insertion but no DNAT append. -/
theorem forwardContainer_web_trace :
    (webForwarder.ForwardContainer "web" initState).1 = none ∧
    (webForwarder.ForwardContainer "web" initState).2.trace =
      [(IPVersion.IPv4, IPTOp.newChain "nat" "LXD-web"),
       (IPVersion.IPv6, IPTOp.newChain "nat" "LXD-web"),
       (IPVersion.IPv4, IPTOp.insert "nat" "PREROUTING" 1
         ["-m", "addrtype", "--dst-type", "LOCAL", "-j", "LXD-web"]),
       (IPVersion.IPv6, IPTOp.insert "nat" "PREROUTING" 1
         ["-m", "addrtype", "--dst-type", "LOCAL", "-j", "LXD-web"]),
       (IPVersion.IPv4, IPTOp.append "nat" "LXD-web"
         ["-p", "tcp", "--dport", "8080", "-j", "DNAT", "--to", "10.0.3.5:80"])] := ⟨rfl, rfl⟩

/-- C7 counterexample: with two IPv4 addresses and an injected failure of
the first DNAT Append call, ForwardContainer still issues the second Append
(so installation is not aborted after the failing call) and returns no
error; the custom chain ends up holding only the second rule. -/
theorem forwardContainer_ignores_append_failure :
    (web2Forwarder.ForwardContainer "web" faultState).1 = none ∧
    ((web2Forwarder.ForwardContainer "web" faultState).2.trace.filter isAppendOp).length = 2 ∧
    (web2Forwarder.ForwardContainer "web" faultState).2.v4.find "nat" "LXD-web" =
      some [["-p", "tcp", "--dport", "8080", "-j", "DNAT", "--to", "10.0.3.6:80"]] :=
  ⟨rfl, rfl, rfl⟩

/- Lemma kit: association lists. -/

theorem alookup_cons {α β : Type} [DecidableEq α] (k k1 : α) (v1 : β) (rest : List (α × β)) :
    alookup k ((k1, v1) :: rest) = if k1 = k then some v1 else alookup k rest := rfl

theorem alookup_append_some {α β : Type} [DecidableEq α] {k : α} {l1 l2 : List (α × β)} {v : β}
    (h : alookup k l1 = some v) : alookup k (l1 ++ l2) = some v := by
  induction l1 with
  | nil => simp [alookup] at h
  | cons e rest ih =>
    obtain ⟨k1, v1⟩ := e
    rw [List.cons_append, alookup_cons]
    rw [alookup_cons] at h
    by_cases hk : k1 = k
    · rw [if_pos hk] at h ⊢; exact h
    · rw [if_neg hk] at h ⊢; exact ih h

theorem alookup_append_none {α β : Type} [DecidableEq α] {k : α} {l1 : List (α × β)}
    (l2 : List (α × β)) (h : alookup k l1 = none) : alookup k (l1 ++ l2) = alookup k l2 := by
  induction l1 with
  | nil => rfl
  | cons e rest ih =>
    obtain ⟨k1, v1⟩ := e
    rw [List.cons_append, alookup_cons]
    rw [alookup_cons] at h
    by_cases hk : k1 = k
    · rw [if_pos hk] at h; exact absurd h (by simp)
    · rw [if_neg hk] at h ⊢; exact ih h

theorem alookup_setChainAux_self (k : ChainKey) (rs : List Rule) (l : List (ChainKey × List Rule)) :
    alookup k (setChainAux k rs l) = some rs := by
  induction l with
  | nil => simp [setChainAux, alookup_cons]
  | cons e rest ih =>
    obtain ⟨k1, rs1⟩ := e
    by_cases hk : k1 = k
    · subst hk
      simp [setChainAux, alookup_cons]
    · simp [setChainAux, hk, alookup_cons, ih]

theorem alookup_setChainAux_ne {q k : ChainKey} (hne : q ≠ k) (rs : List Rule)
    (l : List (ChainKey × List Rule)) : alookup q (setChainAux k rs l) = alookup q l := by
  have hkq : k ≠ q := fun h => hne h.symm
  induction l with
  | nil => simp [setChainAux, alookup_cons, hkq, alookup]
  | cons e rest ih =>
    obtain ⟨k1, rs1⟩ := e
    by_cases hk : k1 = k
    · subst hk
      simp [setChainAux, alookup_cons, hkq]
    · simp only [setChainAux, if_neg hk, alookup_cons]
      by_cases hq : k1 = q
      · rw [if_pos hq, if_pos hq]
      · rw [if_neg hq, if_neg hq]
        exact ih

theorem find_setChain_self (st : IPTState) (t c : String) (rs : List Rule) :
    (st.setChain t c rs).find t c = some rs :=
  alookup_setChainAux_self (t, c) rs st.chains

theorem find_setChain_ne {t1 c1 t c : String} (st : IPTState) (rs : List Rule)
    (h : (t1, c1) ≠ (t, c)) : (st.setChain t c rs).find t1 c1 = st.find t1 c1 :=
  alookup_setChainAux_ne h rs st.chains

/- Lemma kit: constructive backend calls never remove chains or rules. -/

theorem applyOp_ok_find {op : IPTOp} {st st1 : IPTState} (hc : op.constructive = true)
    (h : applyOp op st = .ok st1) {t c : String} {rs : List Rule} (hf : st.find t c = some rs) :
    ∃ rs1, st1.find t c = some rs1 ∧ ∀ r ∈ rs, r ∈ rs1 := by
  cases op with
  | delete t0 c0 r0 => simp [IPTOp.constructive] at hc
  | clearChain t0 c0 => simp [IPTOp.constructive] at hc
  | deleteChain t0 c0 => simp [IPTOp.constructive] at hc
  | newChain t0 c0 =>
    simp only [applyOp] at h
    by_cases hch : st.hasChain t0 c0 = true
    · rw [if_pos hch] at h; exact absurd h (by simp)
    · rw [if_neg hch] at h
      injection h with h1
      refine ⟨rs, ?_, fun r hr => hr⟩
      rw [← h1]
      show alookup (t, c) (st.chains ++ [((t0, c0), [])]) = some rs
      exact alookup_append_some hf
  | insert t0 c0 pos r0 =>
    simp only [applyOp] at h
    cases hfind : st.find t0 c0 with
    | none => simp [hfind] at h
    | some rs0 =>
      simp only [hfind] at h
      by_cases hpos : (decide (pos = 0) || decide (rs0.length + 1 < pos)) = true
      · rw [if_pos hpos] at h; exact absurd h (by simp)
      · rw [if_neg hpos] at h
        injection h with h1
        by_cases hkey : (t, c) = (t0, c0)
        · rw [Prod.mk.injEq] at hkey
          obtain ⟨rfl, rfl⟩ := hkey
          have hrs : rs = rs0 := by rw [hf] at hfind; exact Option.some.inj hfind
          subst hrs
          refine ⟨rs.take (pos - 1) ++ r0 :: rs.drop (pos - 1), ?_, ?_⟩
          · rw [← h1]; exact find_setChain_self st t c _
          · intro r hr
            have hsplit := List.take_append_drop (pos - 1) rs
            rw [← hsplit] at hr
            rcases List.mem_append.1 hr with hl | hl
            · exact List.mem_append.2 (Or.inl hl)
            · exact List.mem_append.2 (Or.inr (List.mem_cons_of_mem _ hl))
        · refine ⟨rs, ?_, fun r hr => hr⟩
          rw [← h1, find_setChain_ne st _ hkey]
          exact hf
  | append t0 c0 r0 =>
    simp only [applyOp] at h
    cases hfind : st.find t0 c0 with
    | none => simp [hfind] at h
    | some rs0 =>
      simp only [hfind] at h
      injection h with h1
      by_cases hkey : (t, c) = (t0, c0)
      · rw [Prod.mk.injEq] at hkey
        obtain ⟨rfl, rfl⟩ := hkey
        have hrs : rs = rs0 := by rw [hf] at hfind; exact Option.some.inj hfind
        subst hrs
        refine ⟨rs ++ [r0], ?_, fun r hr => List.mem_append.2 (Or.inl hr)⟩
        rw [← h1]; exact find_setChain_self st t c _
      · refine ⟨rs, ?_, fun r hr => hr⟩
        rw [← h1, find_setChain_ne st _ hkey]
        exact hf

theorem applyOp_ok_hasChain {op : IPTOp} {st st1 : IPTState} (hc : op.constructive = true)
    (h : applyOp op st = .ok st1) {t c : String} (hh : st.hasChain t c = true) :
    st1.hasChain t c = true := by
  rw [IPTState.hasChain, Option.isSome_iff_exists] at hh
  obtain ⟨rs, hf⟩ := hh
  obtain ⟨rs1, hf1, _⟩ := applyOp_ok_find hc h hf
  rw [IPTState.hasChain, hf1]
  rfl

theorem applyOp_ok_ruleIn {op : IPTOp} {st st1 : IPTState} (hc : op.constructive = true)
    (h : applyOp op st = .ok st1) {t c : String} {r : Rule} (hr : st.ruleIn t c r = true) :
    st1.ruleIn t c r = true := by
  simp only [IPTState.ruleIn] at hr
  cases hf : st.find t c with
  | none => rw [hf] at hr; cases hr
  | some rs =>
    rw [hf] at hr
    have hmem : r ∈ rs := of_decide_eq_true hr
    obtain ⟨rs1, hf1, hsub⟩ := applyOp_ok_find hc h hf
    simp only [IPTState.ruleIn, hf1]
    exact decide_eq_true (hsub r hmem)

/- Lemma kit: world-state projections. -/

theorem bump_backend (ver : IPVersion) (op : IPTOp) (s : BState) (v1 : IPVersion) :
    (bump ver op s).backend v1 = s.backend v1 := by cases v1 <;> rfl

theorem setBackend_backend_self (s : BState) (ver : IPVersion) (st : IPTState) :
    (s.setBackend ver st).backend ver = st := by cases ver <;> rfl

theorem setBackend_backend_ne {v1 ver : IPVersion} (s : BState) (st : IPTState) (h : v1 ≠ ver) :
    (s.setBackend ver st).backend v1 = s.backend v1 := by
  cases ver <;> cases v1 <;> first | rfl | exact absurd rfl h

theorem setBackend_trace (s : BState) (ver : IPVersion) (st : IPTState) :
    (s.setBackend ver st).trace = s.trace := by cases ver <;> rfl

theorem setBackend_ecalls (s : BState) (ver : IPVersion) (st : IPTState) :
    (s.setBackend ver st).ecalls = s.ecalls := by cases ver <;> rfl

theorem doOp_trace (ver : IPVersion) (op : IPTOp) (s : BState) :
    (doOp ver op s).2.trace = s.trace ++ [(ver, op)] := by
  by_cases hfa : s.calls ∈ s.faults
  · simp only [doOp, if_pos hfa]
    rfl
  · simp only [doOp, if_neg hfa]
    cases happ : applyOp op (s.backend ver) with
    | ok st1 =>
      show ((bump ver op s).setBackend ver st1).trace = s.trace ++ [(ver, op)]
      rw [setBackend_trace]
      rfl
    | error e => rfl

theorem doOp_ecalls (ver : IPVersion) (op : IPTOp) (s : BState) :
    (doOp ver op s).2.ecalls = s.ecalls := by
  by_cases hfa : s.calls ∈ s.faults
  · simp only [doOp, if_pos hfa]
    rfl
  · simp only [doOp, if_neg hfa]
    cases happ : applyOp op (s.backend ver) with
    | ok st1 =>
      show ((bump ver op s).setBackend ver st1).ecalls = s.ecalls
      rw [setBackend_ecalls]
      rfl
    | error e => rfl

theorem doOp_pres_chain {op : IPTOp} (hc : op.constructive = true) (ver : IPVersion)
    {s : BState} {v1 : IPVersion} {t c : String} (h : (s.backend v1).hasChain t c = true) :
    ((doOp ver op s).2.backend v1).hasChain t c = true := by
  by_cases hfa : s.calls ∈ s.faults
  · simp only [doOp, if_pos hfa]
    show ((bump ver op s).backend v1).hasChain t c = true
    rwa [bump_backend]
  · simp only [doOp, if_neg hfa]
    cases happ : applyOp op (s.backend ver) with
    | ok st1 =>
      show (((bump ver op s).setBackend ver st1).backend v1).hasChain t c = true
      by_cases hv : v1 = ver
      · subst hv
        rw [setBackend_backend_self]
        exact applyOp_ok_hasChain hc happ h
      · rw [setBackend_backend_ne _ _ hv, bump_backend]
        exact h
    | error e =>
      show ((bump ver op s).backend v1).hasChain t c = true
      rwa [bump_backend]

theorem doOp_pres_rule {op : IPTOp} (hc : op.constructive = true) (ver : IPVersion)
    {s : BState} {v1 : IPVersion} {t c : String} {r : Rule}
    (h : (s.backend v1).ruleIn t c r = true) :
    ((doOp ver op s).2.backend v1).ruleIn t c r = true := by
  by_cases hfa : s.calls ∈ s.faults
  · simp only [doOp, if_pos hfa]
    show ((bump ver op s).backend v1).ruleIn t c r = true
    rwa [bump_backend]
  · simp only [doOp, if_neg hfa]
    cases happ : applyOp op (s.backend ver) with
    | ok st1 =>
      show (((bump ver op s).setBackend ver st1).backend v1).ruleIn t c r = true
      by_cases hv : v1 = ver
      · subst hv
        rw [setBackend_backend_self]
        exact applyOp_ok_ruleIn hc happ h
      · rw [setBackend_backend_ne _ _ hv, bump_backend]
        exact h
    | error e =>
      show ((bump ver op s).backend v1).ruleIn t c r = true
      rwa [bump_backend]

/- Lemma kit: the persists relation and the forward path. -/

theorem persists_refl (s : BState) : persists s s :=
  fun _ _ _ => ⟨id, fun _ => id⟩

theorem persists_trans {sa sb sc : BState} (h1 : persists sa sb) (h2 : persists sb sc) :
    persists sa sc := by
  intro v1 t c
  exact ⟨fun h => (h2 v1 t c).1 ((h1 v1 t c).1 h),
         fun r h => (h2 v1 t c).2 r ((h1 v1 t c).2 r h)⟩

theorem doOp_persists (op : IPTOp) (hc : op.constructive = true) (ver : IPVersion) (s : BState) :
    persists s (doOp ver op s).2 :=
  fun _ _ _ => ⟨fun h => doOp_pres_chain hc ver h, fun _ h => doOp_pres_rule hc ver h⟩

theorem seqOp_persists {s0 : BState} (ver : IPVersion) (op : IPTOp)
    (hc : op.constructive = true) {r : Option IPTErr × BState} (h : persists s0 r.2) :
    persists s0 (seqOp ver op r).2 := by
  rcases r with ⟨e, s⟩
  cases e with
  | some e => exact h
  | none => exact persists_trans h (doOp_persists op hc ver s)

theorem seqOp_ok {ver : IPVersion} {op : IPTOp} {r : Option IPTErr × BState} {s1 : BState}
    (h : seqOp ver op r = (none, s1)) :
    ∃ s0, r = (none, s0) ∧ doOp ver op s0 = (none, s1) := by
  rcases r with ⟨e, s⟩
  cases e with
  | some e => exact absurd h (by simp [seqOp])
  | none => exact ⟨s, rfl, h⟩

theorem seqOp_err {ver : IPVersion} {op : IPTOp} {r : Option IPTErr × BState}
    (h : r.1 ≠ none) : (seqOp ver op r).1 ≠ none := by
  rcases r with ⟨e, s⟩
  cases e with
  | some e => simp [seqOp]
  | none => exact absurd rfl h

theorem appendLoop_persists (ver : IPVersion) (cc : String) (mk : String → Rule) :
    ∀ (addrs : List String) (s : BState), persists s (appendLoop ver cc mk addrs s)
  | [], s => persists_refl s
  | a :: rest, s =>
    persists_trans (doOp_persists (.append IPTable cc (mk a)) rfl ver s)
      (appendLoop_persists ver cc mk rest _)

theorem applyPorts_persists (protocol cc : String) (ip4 ip6 : List String) :
    ∀ (ports : List (String × Int)) (s : BState), persists s (applyPorts protocol cc ip4 ip6 ports s)
  | [], s => persists_refl s
  | (_, _) :: rest, s =>
    persists_trans (appendLoop_persists _ _ _ ip4 s)
      (persists_trans (appendLoop_persists _ _ _ ip6 _)
        (applyPorts_persists protocol cc ip4 ip6 rest _))

theorem applyMappings_persists (cc : String) (ip4 ip6 : List String) :
    ∀ (pfs : List PortMappings) (s : BState), persists s (applyMappings cc ip4 ip6 pfs s)
  | [], s => persists_refl s
  | pf :: rest, s =>
    persists_trans (applyPorts_persists pf.protocol cc ip4 ip6 pf.ports s)
      (applyMappings_persists cc ip4 ip6 rest _)

theorem setupChains_persists (cc : String) (s : BState) : persists s (setupChains cc s).2 := by
  refine seqOp_persists .IPv6 (.insert IPTable "PREROUTING" 1 (hookRuleFwd cc)) rfl ?_
  refine seqOp_persists .IPv4 (.insert IPTable "PREROUTING" 1 (hookRuleFwd cc)) rfl ?_
  refine seqOp_persists .IPv6 (.newChain IPTable cc) rfl ?_
  exact doOp_persists (.newChain IPTable cc) rfl .IPv4 s

theorem fwdEntry_backend (w : String) (s : BState) (v1 : IPVersion) :
    (fwdEntry w s).backend v1 = s.backend v1 := by cases v1 <;> rfl

theorem revEntry_backend (w : String) (s : BState) (v1 : IPVersion) :
    (revEntry w s).backend v1 = s.backend v1 := by cases v1 <;> rfl

theorem fwdEntry_persists (w : String) (s : BState) : persists s (fwdEntry w s) := by
  intro v1 t c
  rw [fwdEntry_backend]
  exact ⟨id, fun _ => id⟩

theorem fc_persists (f : Forwarder) (w : String) (s : BState) :
    persists s (f.ForwardContainer w s).2 := by
  rw [Forwarder.ForwardContainer]
  cases hl : alookup w f.config.forwards with
  | none => exact fwdEntry_persists w s
  | some pfs =>
    cases hcs : f.containerState w with
    | error e => exact fwdEntry_persists w s
    | ok st =>
      have psu : persists s (setupChains (getChainFwd w) (fwdEntry w s)).2 :=
        persists_trans (fwdEntry_persists w s) (setupChains_persists (getChainFwd w) (fwdEntry w s))
      cases hsu : (setupChains (getChainFwd w) (fwdEntry w s)).1 with
      | some e => exact psu
      | none => exact persists_trans psu (applyMappings_persists _ _ _ pfs _)

/- Lemma kit: what a successful setup phase establishes. -/

theorem doOp_ok_parts {ver : IPVersion} {op : IPTOp} {s s1 : BState}
    (h : doOp ver op s = (none, s1)) :
    ∃ st1, applyOp op (s.backend ver) = .ok st1 ∧ s1 = (bump ver op s).setBackend ver st1 := by
  by_cases hfa : s.calls ∈ s.faults
  · simp only [doOp, if_pos hfa] at h
    exact absurd h (by simp)
  · simp only [doOp, if_neg hfa] at h
    cases happ : applyOp op (s.backend ver) with
    | ok st1 =>
      simp only [happ] at h
      simp only [Prod.mk.injEq] at h
      exact ⟨st1, rfl, h.2.symm⟩
    | error e =>
      simp only [happ] at h
      exact absurd h (by simp)

theorem doOp_newChain_ok {ver : IPVersion} {t c : String} {s s1 : BState}
    (h : doOp ver (.newChain t c) s = (none, s1)) :
    (s1.backend ver).hasChain t c = true := by
  obtain ⟨st1, happ, hs1⟩ := doOp_ok_parts h
  subst hs1
  rw [setBackend_backend_self]
  simp only [applyOp] at happ
  by_cases hch : (s.backend ver).hasChain t c = true
  · rw [if_pos hch] at happ; exact absurd happ (by simp)
  · rw [if_neg hch] at happ
    injection happ with h1
    rw [← h1]
    cases hfn : (s.backend ver).find t c with
    | some rs => exact absurd (by rw [IPTState.hasChain, hfn]; rfl) hch
    | none =>
      show (alookup (t, c) ((s.backend ver).chains ++ [((t, c), [])])).isSome = true
      rw [alookup_append_none _ hfn]
      simp [alookup_cons]

theorem doOp_insert_ok {ver : IPVersion} {t c : String} {r : Rule} {s s1 : BState}
    (h : doOp ver (.insert t c 1 r) s = (none, s1)) :
    (s1.backend ver).ruleIn t c r = true := by
  obtain ⟨st1, happ, hs1⟩ := doOp_ok_parts h
  subst hs1
  rw [setBackend_backend_self]
  simp only [applyOp] at happ
  cases hfind : (s.backend ver).find t c with
  | none => simp [hfind] at happ
  | some rs =>
    simp only [hfind] at happ
    have hcnd : (decide ((1 : Nat) = 0) || decide (rs.length + 1 < 1)) = false := by simp
    rw [hcnd] at happ
    rw [if_neg (by simp)] at happ
    injection happ with h1
    rw [← h1]
    simp only [IPTState.ruleIn, find_setChain_self]
    simp

theorem setupChains_ok {cc : String} {s s1 : BState} (h : setupChains cc s = (none, s1)) :
    (s1.backend .IPv4).hasChain IPTable cc = true ∧
    (s1.backend .IPv6).hasChain IPTable cc = true ∧
    (s1.backend .IPv4).ruleIn IPTable "PREROUTING" (hookRuleFwd cc) = true ∧
    (s1.backend .IPv6).ruleIn IPTable "PREROUTING" (hookRuleFwd cc) = true := by
  obtain ⟨sC, hC, h4⟩ := seqOp_ok h
  obtain ⟨sB, hB, h3⟩ := seqOp_ok hC
  obtain ⟨sA, h1, h2⟩ := seqOp_ok hB
  have pAB : persists sA sB := by
    have hp := doOp_persists (.newChain IPTable cc) rfl .IPv6 sA
    rwa [h2] at hp
  have pBC : persists sB sC := by
    have hp := doOp_persists (.insert IPTable "PREROUTING" 1 (hookRuleFwd cc)) rfl .IPv4 sB
    rwa [h3] at hp
  have pCD : persists sC s1 := by
    have hp := doOp_persists (.insert IPTable "PREROUTING" 1 (hookRuleFwd cc)) rfl .IPv6 sC
    rwa [h4] at hp
  have c4 : (sA.backend .IPv4).hasChain IPTable cc = true := doOp_newChain_ok h1
  have c6 : (sB.backend .IPv6).hasChain IPTable cc = true := doOp_newChain_ok h2
  have r4 : (sC.backend .IPv4).ruleIn IPTable "PREROUTING" (hookRuleFwd cc) = true :=
    doOp_insert_ok h3
  have r6 : (s1.backend .IPv6).ruleIn IPTable "PREROUTING" (hookRuleFwd cc) = true :=
    doOp_insert_ok h4
  refine ⟨?_, ?_, ?_, ?_⟩
  · exact (pCD .IPv4 IPTable cc).1 ((pBC .IPv4 IPTable cc).1 ((pAB .IPv4 IPTable cc).1 c4))
  · exact (pCD .IPv6 IPTable cc).1 ((pBC .IPv6 IPTable cc).1 c6)
  · exact (pCD .IPv4 IPTable "PREROUTING").2 _ r4
  · exact r6

theorem installedFor_of_setupChains {w : String} {s s1 : BState}
    (h : setupChains (getChainFwd w) s = (none, s1)) : installedFor w s1 = true := by
  obtain ⟨h1, h2, h3, h4⟩ := setupChains_ok h
  simp only [installedFor, Bool.and_eq_true]
  exact ⟨⟨⟨h1, h2⟩, h3⟩, h4⟩

theorem installedFor_persists {w : String} {s s1 : BState} (hi : installedFor w s = true)
    (hp : persists s s1) : installedFor w s1 = true := by
  simp only [installedFor, Bool.and_eq_true] at hi ⊢
  obtain ⟨⟨⟨c4, c6⟩, r4⟩, r6⟩ := hi
  exact ⟨⟨⟨(hp .IPv4 IPTable (getChainFwd w)).1 c4, (hp .IPv6 IPTable (getChainFwd w)).1 c6⟩,
    (hp .IPv4 IPTable "PREROUTING").2 _ r4⟩, (hp .IPv6 IPTable "PREROUTING").2 _ r6⟩

theorem fc_ok_inv (f : Forwarder) (w : String) (s : BState)
    (h : (f.ForwardContainer w s).1 = none) :
    ∃ pfs st, alookup w f.config.forwards = some pfs ∧ f.containerState w = .ok st ∧
      (setupChains (getChainFwd w) (fwdEntry w s)).1 = none ∧
      (f.ForwardContainer w s).2 =
        applyMappings (getChainFwd w) (addrsOfFamily "inet" st.network)
          (addrsOfFamily "inet6" st.network) pfs
          (setupChains (getChainFwd w) (fwdEntry w s)).2 := by
  unfold Forwarder.ForwardContainer at h ⊢
  cases hl : alookup w f.config.forwards with
  | none => simp [hl] at h
  | some pfs =>
    cases hcs : f.containerState w with
    | error e => simp [hl, hcs] at h
    | ok st =>
      cases hsu : (setupChains (getChainFwd w) (fwdEntry w s)).1 with
      | some e => simp [hl, hcs, hsu] at h
      | none =>
        refine ⟨pfs, st, rfl, rfl, rfl, ?_⟩
        simp

theorem fc_ok_installed (f : Forwarder) (w : String) (s : BState)
    (h : (f.ForwardContainer w s).1 = none) :
    installedFor w (f.ForwardContainer w s).2 = true := by
  obtain ⟨pfs, st, hl, hcs, hsu, heq⟩ := fc_ok_inv f w s h
  rw [heq]
  have hpair : setupChains (getChainFwd w) (fwdEntry w s) =
      (none, (setupChains (getChainFwd w) (fwdEntry w s)).2) := by
    rw [← hsu]
  exact installedFor_persists (installedFor_of_setupChains hpair)
    (applyMappings_persists _ _ _ pfs _)

/- C1: forwarding an already-forwarded container fails on chain creation. -/

theorem setupChains_err {cc : String} {s : BState}
    (h : (s.backend .IPv4).hasChain IPTable cc = true) : (setupChains cc s).1 ≠ none := by
  apply seqOp_err
  apply seqOp_err
  apply seqOp_err
  by_cases hfa : s.calls ∈ s.faults
  · simp [doOp, if_pos hfa]
  · simp only [doOp, if_neg hfa]
    simp [applyOp, h]

theorem fc_err_of_installed (f : Forwarder) (w : String) (s : BState)
    (h : installedFor w s = true) : (f.ForwardContainer w s).1 ≠ none := by
  rw [Forwarder.ForwardContainer]
  cases hl : alookup w f.config.forwards with
  | none => simp
  | some pfs =>
    cases hcs : f.containerState w with
    | error e => simp
    | ok st =>
      have hne : (setupChains (getChainFwd w) (fwdEntry w s)).1 ≠ none := by
        apply setupChains_err
        rw [fwdEntry_backend]
        simp only [installedFor, Bool.and_eq_true] at h
        exact h.1.1.1
      cases hsu : (setupChains (getChainFwd w) (fwdEntry w s)).1 with
      | some e => simp
      | none => exact absurd hsu hne

/-- C1 amended, proved in general: whenever ForwardContainer succeeds for a
container, calling it again immediately afterwards returns an error (the
custom chain already exists, so the NewChain call fails and the error is
propagated rather than tolerated). -/
theorem forwardContainer_twice_errors (f : Forwarder) (w : String) (s : BState)
    (h : (f.ForwardContainer w s).1 = none) :
    (f.ForwardContainer w (f.ForwardContainer w s).2).1 ≠ none :=
  fc_err_of_installed f w _ (fc_ok_installed f w s h)

/-- Witness for the C1 amended theorem at the concrete web scenario. -/
theorem forwardContainer_twice_errors_witness :
    (webForwarder.ForwardContainer "web" (webForwarder.ForwardContainer "web" initState).2).1 ≠ none :=
  forwardContainer_twice_errors webForwarder "web" initState (by rfl)

/- C2: reversing without an installed hook rule fails. -/

/-- C2 amended, proved in general: when the hook rule of the container is
absent from the IPv4 PREROUTING chain (in particular for a never-forwarded
container), ReverseContainer returns an error: the failed Delete call is
propagated instead of being treated as a no-op. -/
theorem reverseContainer_missing_hook_errors (f : Forwarder) (w : String) (s : BState)
    (h : s.v4.ruleIn IPTable "PREROUTING" (hookRuleFwd (getChainFwd w)) = false) :
    (f.ReverseContainer w s).1 ≠ none := by
  have hne : (revDeletes w s).1 ≠ none := by
    apply seqOp_err
    by_cases hfa : (revEntry w s).calls ∈ (revEntry w s).faults
    · simp [doOp, if_pos hfa]
    · simp only [doOp, if_neg hfa]
      have hb : (revEntry w s).backend .IPv4 = s.v4 := rfl
      rw [hb]
      cases hfind : s.v4.find IPTable "PREROUTING" with
      | none => simp [applyOp, hfind]
      | some rs =>
        have hmem : ¬ hookRuleFwd (getChainFwd w) ∈ rs := by
          simp only [IPTState.ruleIn, hfind] at h
          exact of_decide_eq_false h
        simp [applyOp, hfind, hmem]
  rw [Forwarder.ReverseContainer]
  cases hd : (revDeletes w s).1 with
  | some e => simp
  | none => exact absurd hd hne

/-- Witness for the C2 amended theorem: reversing a container that was never
forwarded returns an error. -/
theorem reverseContainer_missing_hook_errors_witness :
    (webForwarder.ReverseContainer "other" initState).1 ≠ none :=
  reverseContainer_missing_hook_errors webForwarder "other" initState (by rfl)

/- Lemma kit: traces of issued backend calls. -/

theorem drop_len_append {α : Type} (l1 l2 : List α) : (l1 ++ l2).drop l1.length = l2 := by
  induction l1 with
  | nil => rfl
  | cons a rest ih => simpa using ih

theorem emitted_of_trace {s s1 : BState} {L : List (IPVersion × IPTOp)}
    (h : s1.trace = s.trace ++ L) : emitted s s1 = L := by
  rw [emitted, h, drop_len_append]

theorem seqOp_fst_some {ver : IPVersion} {op : IPTOp} {r : Option IPTErr × BState} {e : IPTErr}
    (h : r.1 = some e) : seqOp ver op r = r := by
  rcases r with ⟨e1, s⟩
  cases e1 with
  | some e1 => rfl
  | none => exact absurd h (by simp)

theorem seqOp_fst_none {ver : IPVersion} {op : IPTOp} {r : Option IPTErr × BState}
    (h : r.1 = none) : seqOp ver op r = doOp ver op r.2 := by
  rcases r with ⟨e1, s⟩
  cases e1 with
  | some e1 => exact absurd h (by simp)
  | none => rfl

theorem revEntry_trace (w : String) (s : BState) : (revEntry w s).trace = s.trace := rfl

/-- The backend calls emitted by one ReverseContainer invocation: either it
stops at the first failing hook deletion, or at the second, or it runs to
completion, in which case the two hook deletions are followed by the four
chain-teardown calls in source order. -/
theorem revOps_cases (f : Forwarder) (w : String) (s : BState) :
    revOps f w s =
      [(IPVersion.IPv4, IPTOp.delete IPTable "PREROUTING" (hookRuleFwd (getChainFwd w)))] ∨
    revOps f w s =
      [(IPVersion.IPv4, IPTOp.delete IPTable "PREROUTING" (hookRuleFwd (getChainFwd w))),
       (IPVersion.IPv6, IPTOp.delete IPTable "PREROUTING" (hookRuleFwd (getChainFwd w)))] ∨
    revOps f w s =
      [(IPVersion.IPv4, IPTOp.delete IPTable "PREROUTING" (hookRuleFwd (getChainFwd w))),
       (IPVersion.IPv6, IPTOp.delete IPTable "PREROUTING" (hookRuleFwd (getChainFwd w))),
       (IPVersion.IPv4, IPTOp.clearChain IPTable (getChainFwd w)),
       (IPVersion.IPv4, IPTOp.deleteChain IPTable (getChainFwd w)),
       (IPVersion.IPv6, IPTOp.clearChain IPTable (getChainFwd w)),
       (IPVersion.IPv6, IPTOp.deleteChain IPTable (getChainFwd w))] := by
  cases hd : (doOp .IPv4 (.delete IPTable "PREROUTING" (hookRuleFwd (getChainFwd w)))
      (revEntry w s)).1 with
  | some e =>
    left
    have hrd : revDeletes w s =
        doOp .IPv4 (.delete IPTable "PREROUTING" (hookRuleFwd (getChainFwd w))) (revEntry w s) :=
      seqOp_fst_some hd
    have h1 : (revDeletes w s).1 = some e := by rw [hrd]; exact hd
    rw [revOps, Forwarder.ReverseContainer]
    simp only [h1]
    rw [hrd]
    apply emitted_of_trace
    rw [doOp_trace, revEntry_trace]
  | none =>
    have hrd : revDeletes w s =
        doOp .IPv6 (.delete IPTable "PREROUTING" (hookRuleFwd (getChainFwd w)))
          (doOp .IPv4 (.delete IPTable "PREROUTING" (hookRuleFwd (getChainFwd w)))
            (revEntry w s)).2 :=
      seqOp_fst_none hd
    have htr6 : (revDeletes w s).2.trace = s.trace ++
        [(IPVersion.IPv4, IPTOp.delete IPTable "PREROUTING" (hookRuleFwd (getChainFwd w))),
         (IPVersion.IPv6, IPTOp.delete IPTable "PREROUTING" (hookRuleFwd (getChainFwd w)))] := by
      rw [hrd, doOp_trace, doOp_trace, revEntry_trace, List.append_assoc]
      rfl
    cases hd2 : (revDeletes w s).1 with
    | some e =>
      right; left
      rw [revOps, Forwarder.ReverseContainer]
      simp only [hd2]
      exact emitted_of_trace htr6
    | none =>
      right; right
      rw [revOps, Forwarder.ReverseContainer]
      simp only [hd2]
      apply emitted_of_trace
      rw [teardownPhase, doOp_trace, doOp_trace, doOp_trace, doOp_trace, htr6]
      simp

/-- C9 theorem: in every execution of ReverseContainer, for each IP version,
any traced deletion of the PREROUTING hook rule of the container comes
strictly before any traced clearing or deletion of its custom chain against
the same backend (executions that never reach chain teardown satisfy this
vacuously, since no teardown call is traced). -/
theorem reverseContainer_hook_before_teardown (f : Forwarder) (w : String) (s : BState)
    (v : IPVersion) (i j : Nat)
    (hhook : ∃ p, (revOps f w s).get? i = some p ∧ hookDeleteFor w v p)
    (htd : ∃ p, (revOps f w s).get? j = some p ∧ teardownFor w v p) : i < j := by
  obtain ⟨p, hp, hdp⟩ := hhook
  obtain ⟨q, hq, hdq⟩ := htd
  rcases revOps_cases f w s with hc | hc | hc <;> rw [hc] at hp hq
  · have hj1 : j < 1 := by
      obtain ⟨h, _⟩ := List.get?_eq_some.1 hq
      exact h
    interval_cases j
    have hq1 := Option.some.inj hq
    subst hq1
    simp [teardownFor] at hdq
  · have hj2 : j < 2 := by
      obtain ⟨h, _⟩ := List.get?_eq_some.1 hq
      exact h
    interval_cases j <;>
      (have hq1 := Option.some.inj hq; subst hq1; simp [teardownFor] at hdq)
  · have hi6 : i < 6 := by
      obtain ⟨h, _⟩ := List.get?_eq_some.1 hp
      exact h
    have hj6 : j < 6 := by
      obtain ⟨h, _⟩ := List.get?_eq_some.1 hq
      exact h
    cases v <;> interval_cases i <;> interval_cases j <;>
      (have hp1 := Option.some.inj hp; have hq1 := Option.some.inj hq;
       subst hp1; subst hq1) <;>
      simp [hookDeleteFor, teardownFor, Prod.mk.injEq] at hdp hdq <;>
      omega

/-- Witness for the C9 theorem: in the concrete web teardown, the IPv4 hook
deletion (index 0) precedes the IPv4 chain clearing (index 2). -/
theorem reverseContainer_hook_before_teardown_witness : (0 : Nat) < 2 :=
  reverseContainer_hook_before_teardown webForwarder "web" webAfterForward .IPv4 0 2
    ⟨(IPVersion.IPv4, IPTOp.delete "nat" "PREROUTING"
        ["-m", "addrtype", "--dst-type", "LOCAL", "-j", "LXD-web"]),
      by decide, rfl⟩
    ⟨(IPVersion.IPv4, IPTOp.clearChain "nat" "LXD-web"), by decide, by
      refine ⟨rfl, Or.inl ?_⟩
      rfl⟩

/- Lemma kit: call counts of the per-port rule loop. -/

theorem appendLoop_trace_len (ver : IPVersion) (cc : String) (mk : String → Rule) :
    ∀ (addrs : List String) (s : BState),
      (appendLoop ver cc mk addrs s).trace.length = s.trace.length + addrs.length := by
  intro addrs
  induction addrs with
  | nil => intro s; rfl
  | cons a rest ih =>
    intro s
    show (appendLoop ver cc mk rest (doOp ver (.append IPTable cc (mk a)) s).2).trace.length = _
    rw [ih, doOp_trace]
    simp only [List.length_append, List.length_cons, List.length_nil]
    omega

theorem applyPorts_trace_len (protocol cc : String) (ip4 ip6 : List String) :
    ∀ (ports : List (String × Int)) (s : BState),
      (applyPorts protocol cc ip4 ip6 ports s).trace.length =
        s.trace.length + ports.length * (ip4.length + ip6.length) := by
  intro ports
  induction ports with
  | nil => intro s; simp [applyPorts]
  | cons p rest ih =>
    intro s
    obtain ⟨hp, cp⟩ := p
    show (applyPorts protocol cc ip4 ip6 rest _).trace.length = _
    rw [ih, appendLoop_trace_len, appendLoop_trace_len]
    rw [List.length_cons, Nat.succ_mul]
    omega

theorem applyMappings_trace_len (cc : String) (ip4 ip6 : List String) :
    ∀ (pfs : List PortMappings) (s : BState),
      (applyMappings cc ip4 ip6 pfs s).trace.length =
        s.trace.length + totalPairs pfs ip4 ip6 := by
  intro pfs
  induction pfs with
  | nil => intro s; rfl
  | cons pf rest ih =>
    intro s
    show (applyMappings cc ip4 ip6 rest _).trace.length = _
    rw [ih, applyPorts_trace_len, totalPairs]
    omega

/-- C7 amended, proved in general: once the chain and hook setup phase has
succeeded, ForwardContainer always returns a nil error and issues exactly
one Append call per (port mapping, host port, address) combination of the
container, regardless of whether any of those Append calls fails: the
Append results are discarded, so a failing per-port call neither stops the
remaining installation nor surfaces an error. -/
theorem forwardContainer_append_phase_no_abort (f : Forwarder) (w : String) (s : BState)
    (pfs : List PortMappings) (st : ContainerState)
    (hl : alookup w f.config.forwards = some pfs)
    (hcs : f.containerState w = .ok st)
    (hsu : (setupChains (getChainFwd w) (fwdEntry w s)).1 = none) :
    (f.ForwardContainer w s).1 = none ∧
    (f.ForwardContainer w s).2.trace.length =
      (setupChains (getChainFwd w) (fwdEntry w s)).2.trace.length +
        totalPairs pfs (addrsOfFamily "inet" st.network) (addrsOfFamily "inet6" st.network) := by
  have heq : f.ForwardContainer w s =
      (none, applyMappings (getChainFwd w) (addrsOfFamily "inet" st.network)
        (addrsOfFamily "inet6" st.network) pfs (setupChains (getChainFwd w) (fwdEntry w s)).2) := by
    rw [Forwarder.ForwardContainer]
    simp only [hl, hcs, hsu]
  rw [heq]
  exact ⟨rfl, applyMappings_trace_len _ _ _ pfs _⟩

/-- Witness for the C7 amended theorem at the fault-injected scenario. -/
theorem forwardContainer_append_phase_no_abort_witness :
    (web2Forwarder.ForwardContainer "web" faultState).1 = none :=
  (forwardContainer_append_phase_no_abort web2Forwarder "web" faultState
    [webMapping] web2State (by rfl) (by rfl) (by decide)).1

/- Lemma kit: engine-call traces. -/

theorem seqOp_ecalls (ver : IPVersion) (op : IPTOp) (r : Option IPTErr × BState) :
    (seqOp ver op r).2.ecalls = r.2.ecalls := by
  rcases r with ⟨e, s⟩
  cases e with
  | some e => rfl
  | none => exact doOp_ecalls ver op s

theorem setupChains_ecalls (cc : String) (s : BState) :
    (setupChains cc s).2.ecalls = s.ecalls := by
  rw [setupChains, seqOp_ecalls, seqOp_ecalls, seqOp_ecalls, doOp_ecalls]

theorem appendLoop_ecalls (ver : IPVersion) (cc : String) (mk : String → Rule) :
    ∀ (addrs : List String) (s : BState), (appendLoop ver cc mk addrs s).ecalls = s.ecalls := by
  intro addrs
  induction addrs with
  | nil => intro s; rfl
  | cons a rest ih =>
    intro s
    show (appendLoop ver cc mk rest (doOp ver (.append IPTable cc (mk a)) s).2).ecalls = s.ecalls
    rw [ih, doOp_ecalls]

theorem applyPorts_ecalls (protocol cc : String) (ip4 ip6 : List String) :
    ∀ (ports : List (String × Int)) (s : BState),
      (applyPorts protocol cc ip4 ip6 ports s).ecalls = s.ecalls := by
  intro ports
  induction ports with
  | nil => intro s; rfl
  | cons p rest ih =>
    intro s
    obtain ⟨hp, cp⟩ := p
    show (applyPorts protocol cc ip4 ip6 rest _).ecalls = _
    rw [ih, appendLoop_ecalls, appendLoop_ecalls]

theorem applyMappings_ecalls (cc : String) (ip4 ip6 : List String) :
    ∀ (pfs : List PortMappings) (s : BState),
      (applyMappings cc ip4 ip6 pfs s).ecalls = s.ecalls := by
  intro pfs
  induction pfs with
  | nil => intro s; rfl
  | cons pf rest ih =>
    intro s
    show (applyMappings cc ip4 ip6 rest _).ecalls = _
    rw [ih, applyPorts_ecalls]

theorem fc_ecalls (f : Forwarder) (w : String) (s : BState) :
    (f.ForwardContainer w s).2.ecalls = s.ecalls ++ [EngineCall.forwardContainer w] := by
  rw [Forwarder.ForwardContainer]
  cases hl : alookup w f.config.forwards with
  | none => rfl
  | some pfs =>
    cases hcs : f.containerState w with
    | error e => rfl
    | ok st =>
      cases hsu : (setupChains (getChainFwd w) (fwdEntry w s)).1 with
      | some e =>
        show (setupChains (getChainFwd w) (fwdEntry w s)).2.ecalls = _
        rw [setupChains_ecalls]
        rfl
      | none =>
        show (applyMappings (getChainFwd w) (addrsOfFamily "inet" st.network)
          (addrsOfFamily "inet6" st.network) pfs
          (setupChains (getChainFwd w) (fwdEntry w s)).2).ecalls = _
        rw [applyMappings_ecalls, setupChains_ecalls]
        rfl

/- C3: aggregation behavior of Forward. -/

theorem forwardLoop_eq (f : Forwarder) : ∀ (l : List (String × List PortMappings)) (s : BState),
    forwardLoop f l s = (failedNames (forwardResults f l s).1, (forwardResults f l s).2) := by
  intro l
  induction l with
  | nil => intro s; rfl
  | cons wp rest ih =>
    intro s
    obtain ⟨w, pfs⟩ := wp
    simp only [forwardLoop, forwardResults]
    rw [ih]
    cases he : (f.ForwardContainer w s).1 with
    | some e => simp [failedNames]
    | none => simp [failedNames]

theorem forwardResults_ecalls (f : Forwarder) : ∀ (l : List (String × List PortMappings)) (s : BState),
    (forwardResults f l s).2.ecalls =
      s.ecalls ++ l.map (fun wp => EngineCall.forwardContainer wp.1) := by
  intro l
  induction l with
  | nil => intro s; simp [forwardResults]
  | cons wp rest ih =>
    intro s
    obtain ⟨w, pfs⟩ := wp
    simp only [forwardResults]
    rw [ih, fc_ecalls]
    simp

theorem forwardResults_persists (f : Forwarder) :
    ∀ (l : List (String × List PortMappings)) (s : BState), persists s (forwardResults f l s).2
  | [], s => persists_refl s
  | (w, _) :: rest, s =>
    persists_trans (fc_persists f w s) (forwardResults_persists f rest _)

theorem forwardResults_installed (f : Forwarder) : ∀ (l : List (String × List PortMappings))
    (s : BState) (w : String) (e : Option FErr),
    (w, e) ∈ (forwardResults f l s).1 → e = none →
    installedFor w (forwardResults f l s).2 = true := by
  intro l
  induction l with
  | nil => intro s w e hmem _; simp [forwardResults] at hmem
  | cons wp rest ih =>
    intro s w e hmem he
    obtain ⟨w0, pfs0⟩ := wp
    simp only [forwardResults] at hmem ⊢
    rcases List.mem_cons.1 hmem with hh | ht
    · rw [Prod.mk.injEq] at hh
      obtain ⟨rfl, he2⟩ := hh
      subst he
      have hok : (f.ForwardContainer w s).1 = none := he2.symm
      exact installedFor_persists (fc_ok_installed f w s hok) (forwardResults_persists f rest _)
    · exact ih _ w e ht he

/-- C3 theorem: Forward invokes ForwardContainer once for every configured
workload, in configuration order, even when some of those calls fail; its
final state is the state after the whole sequence of calls (the successful
workloads are not rolled back: for every workload whose call at its turn
succeeded, the custom chain and the hook rules are installed in the final
state); and the returned aggregate error is nil exactly when no call failed,
and otherwise names exactly the workloads whose in-sequence call failed. -/
theorem forward_aggregates_failures (f : Forwarder) (s : BState) :
    (f.Forward s).2 = (forwardResults f f.config.forwards s).2 ∧
    (f.Forward s).2.ecalls =
      s.ecalls ++ f.config.forwards.map (fun wp => EngineCall.forwardContainer wp.1) ∧
    ((f.Forward s).1 = none ↔ failedNames (forwardResults f f.config.forwards s).1 = []) ∧
    (failedNames (forwardResults f f.config.forwards s).1 ≠ [] →
      (f.Forward s).1 = some ("Unable to forward ports for containers " ++
        goJoin (failedNames (forwardResults f f.config.forwards s).1) ", ")) ∧
    (∀ (w : String) (e : Option FErr), (w, e) ∈ (forwardResults f f.config.forwards s).1 →
      e = none → installedFor w (f.Forward s).2 = true) := by
  have hF : f.Forward s = ((if (failedNames (forwardResults f f.config.forwards s).1).isEmpty
      then none
      else some ("Unable to forward ports for containers " ++
        goJoin (failedNames (forwardResults f f.config.forwards s).1) ", ")),
      (forwardResults f f.config.forwards s).2) := by
    rw [Forwarder.Forward, forwardLoop_eq]
  refine ⟨?_, ?_, ?_, ?_, ?_⟩
  · rw [hF]
  · rw [hF]
    exact forwardResults_ecalls f f.config.forwards s
  · rw [hF]
    cases hfn : failedNames (forwardResults f f.config.forwards s).1 with
    | nil => simp
    | cons a l => simp
  · intro hne
    rw [hF]
    cases hfn : failedNames (forwardResults f f.config.forwards s).1 with
    | nil => exact absurd hfn hne
    | cons a l => simp
  · intro w e hmem he
    rw [hF]
    exact forwardResults_installed f f.config.forwards s w e hmem he

/-- Witness for the C3 theorem: in the three-workload scenario where the
address lookup of b fails, the aggregate error names exactly b. -/
theorem forward_aggregates_failures_witness :
    failedNames (forwardResults triForwarder triForwarder.config.forwards initState).1 ≠ [] ∧
    (triForwarder.Forward initState).1 =
      some ("Unable to forward ports for containers " ++
        goJoin (failedNames (forwardResults triForwarder triForwarder.config.forwards initState).1) ", ") :=
  ⟨by decide, (forward_aggregates_failures triForwarder initState).2.2.2.1 (by decide)⟩

/- C8: the chain-naming function of iptables.go. -/

theorem str_data_append (a b : String) : (a ++ b).data = a.data ++ b.data := by
  cases a
  cases b
  rfl

theorem str_data_inj {a b : String} (h : a.data = b.data) : a = b := by
  cases a
  cases b
  exact congrArg String.mk h

/-- C8 theorem: the chain name of iptables.go agrees on two inputs exactly
when the inputs agree. The reverse direction is determinism (the name is a
pure function of workload and direction, with no random or time-based
component in the embedding of Sprintf), and the forward direction is
injectivity over distinct (workload, direction) pairs. -/
theorem getChain_eq_iff (w1 w2 : String) (d1 d2 : Direction) :
    getChain w1 d1 = getChain w2 d2 ↔ (w1 = w2 ∧ d1 = d2) := by
  constructor
  · intro h
    rw [getChain, getChain] at h
    have hd := congrArg String.data h
    rw [str_data_append, str_data_append, str_data_append,
        str_data_append, str_data_append, str_data_append] at hd
    cases d1 <;> cases d2
    · obtain ⟨h1, _⟩ := List.append_inj' hd rfl
      obtain ⟨h2, _⟩ := List.append_inj' h1 rfl
      obtain ⟨_, h3⟩ := List.append_inj h2 rfl
      exact ⟨str_data_inj h3, rfl⟩
    · obtain ⟨_, hbad⟩ := List.append_inj' hd (by decide)
      exact absurd hbad (by decide)
    · obtain ⟨_, hbad⟩ := List.append_inj' hd (by decide)
      exact absurd hbad (by decide)
    · obtain ⟨h1, _⟩ := List.append_inj' hd rfl
      obtain ⟨h2, _⟩ := List.append_inj' h1 rfl
      obtain ⟨_, h3⟩ := List.append_inj h2 rfl
      exact ⟨str_data_inj h3, rfl⟩
  · rintro ⟨rfl, rfl⟩
    rfl

/- C10: validation does not modify the configuration. -/

theorem runMappings_eq (container : String) : ∀ (pfs : List PortMappings) (seen : List String),
    runMappings container seen pfs = (checkMappings container seen pfs, pfs) := by
  intro pfs
  induction pfs with
  | nil => intro seen; rfl
  | cons pf rest ih =>
    intro seen
    by_cases hemp : pf.ports.isEmpty = true
    · simp [runMappings, checkMappings, hemp]
    · simp only [runMappings, checkMappings, if_neg hemp]
      cases hcp : checkPortsLoop container seen pf pf.ports with
      | error e => simp
      | ok seen1 => simp [ih]

theorem runForwards_eq : ∀ (l : List (String × List PortMappings)) (seen : List String),
    runForwards seen l = (checkForwards seen l, l) := by
  intro l
  induction l with
  | nil => intro seen; rfl
  | cons wp rest ih =>
    intro seen
    obtain ⟨container, pfs⟩ := wp
    simp only [runForwards, checkForwards, runMappings_eq]
    cases hcm : checkMappings container seen pfs with
    | error e => simp
    | ok seen1 => simp [ih]

/-- C10 theorem: running the Validate loops leaves the configuration
unchanged, and the validation verdict is exactly that of Config.Validate.
The assignment of the container name to the Name field inside the loop
lands on the range copy of the slice element (modelled by the local pf1
binding in checkPortsLoop), so no PortMappings value of the config is
observably modified. -/
theorem validateRun_preserves_config (c : Config) :
    (c.ValidateRun).2 = c ∧ (c.ValidateRun).1 = c.Validate := by
  rw [Config.ValidateRun, Config.Validate, runForwards_eq]
  cases h : checkForwards [] c.forwards with
  | ok seen => exact ⟨rfl, rfl⟩
  | error e => exact ⟨rfl, rfl⟩

/- C4: behavior of the lifecycle event handler. -/

theorem assertMap_err {v : GoVal} (h : isMapVal v = false) : assertMap v = .error () := by
  cases v <;> first | rfl | (simp [isMapVal] at h)

theorem assertMap_vmap (m : List (String × GoVal)) : assertMap (GoVal.vmap m) = .ok m := rfl

theorem assertStr_vstr (s : String) : assertStr (GoVal.vstr s) = .ok s := rfl

theorem assertStr_err {v : GoVal} (h : isStrVal v = false) : assertStr v = .error () := by
  cases v <;> first | rfl | (simp [isStrVal] at h)

/-- C4 amended theorem. A record that is not a string-keyed map, a missing
or ill-typed metadata field, and a present but ill-typed context, container
or message field all make the handler panic (the single-result type
assertions fail). By contrast, a missing context field (with no workload
named), an unconfigured workload name, and a missing message field are
tolerated: the event is discarded (ok with no engine call) without invoking
ForwardContainer or ReverseContainer. -/
theorem watchHandler_behavior :
    (∀ (f : Forwarder) (v : GoVal), isMapVal v = false → watchHandler f v = .error ()) ∧
    (∀ (f : Forwarder) (data : List (String × GoVal)),
      isMapVal (goGet data "metadata") = false → watchHandler f (.vmap data) = .error ()) ∧
    (∀ (f : Forwarder) (data metadata : List (String × GoVal)) (v : GoVal),
      goGet data "metadata" = .vmap metadata → alookup "context" metadata = some v →
      isMapVal v = false → watchHandler f (.vmap data) = .error ()) ∧
    (∀ (f : Forwarder) (data metadata ctx : List (String × GoVal)) (v : GoVal),
      goGet data "metadata" = .vmap metadata → alookup "context" metadata = some (.vmap ctx) →
      alookup "container" ctx = some v → isStrVal v = false →
      watchHandler f (.vmap data) = .error ()) ∧
    (∀ (f : Forwarder) (data metadata ctx : List (String × GoVal)) (c : String)
        (pfs : List PortMappings) (v : GoVal),
      goGet data "metadata" = .vmap metadata → alookup "context" metadata = some (.vmap ctx) →
      alookup "container" ctx = some (.vstr c) → alookup c f.config.forwards = some pfs →
      alookup "message" metadata = some v → isStrVal v = false →
      watchHandler f (.vmap data) = .error ()) ∧
    (∀ (f : Forwarder) (data metadata : List (String × GoVal)),
      goGet data "metadata" = .vmap metadata → alookup "context" metadata = none →
      alookup "" f.config.forwards = none → watchHandler f (.vmap data) = .ok none) ∧
    (∀ (f : Forwarder) (data metadata ctx : List (String × GoVal)) (c : String),
      goGet data "metadata" = .vmap metadata → alookup "context" metadata = some (.vmap ctx) →
      alookup "container" ctx = some (.vstr c) → alookup c f.config.forwards = none →
      watchHandler f (.vmap data) = .ok none) ∧
    (∀ (f : Forwarder) (data metadata ctx : List (String × GoVal)) (c : String)
        (pfs : List PortMappings),
      goGet data "metadata" = .vmap metadata → alookup "context" metadata = some (.vmap ctx) →
      alookup "container" ctx = some (.vstr c) → alookup c f.config.forwards = some pfs →
      alookup "message" metadata = none → watchHandler f (.vmap data) = .ok none) := by
  refine ⟨?_, ?_, ?_, ?_, ?_, ?_, ?_, ?_⟩
  · intro f v hv
    simp [watchHandler, assertMap_err hv]
  · intro f data h
    simp [watchHandler, assertMap_vmap, assertMap_err h]
  · intro f data metadata v hmd hctx hv
    simp [watchHandler, assertMap_vmap, hmd, hctx, assertMap_err hv]
  · intro f data metadata ctx v hmd hctx hcont hv
    simp [watchHandler, assertMap_vmap, hmd, hctx, hcont, assertStr_err hv]
  · intro f data metadata ctx c pfs v hmd hctx hcont hcfg hmsg hv
    simp [watchHandler, assertMap_vmap, assertStr_vstr, hmd, hctx, hcont, hcfg, hmsg,
      assertStr_err hv]
  · intro f data metadata hmd hctx hroot
    simp [watchHandler, assertMap_vmap, hmd, hctx, hroot, alookup]
  · intro f data metadata ctx c hmd hctx hcont hcfg
    simp [watchHandler, assertMap_vmap, assertStr_vstr, hmd, hctx, hcont, hcfg]
  · intro f data metadata ctx c pfs hmd hctx hcont hcfg hmsg
    simp [watchHandler, assertMap_vmap, assertStr_vstr, hmd, hctx, hcont, hcfg, hmsg,
      ContainerStarted, ContainerStopped]

/-- Witness for the C4 amended theorem: a started event whose message field
holds an integer instead of a string panics the handler, and a started
event for the unconfigured workload ghost is discarded without any engine
call and without panic. -/
theorem watchHandler_behavior_witness :
    watchHandler webForwarder (GoVal.vmap [("metadata", GoVal.vmap
      [("context", GoVal.vmap [("container", GoVal.vstr "web")]),
       ("message", GoVal.vint 7)])]) = .error () ∧
    watchHandler webForwarder (GoVal.vmap [("metadata", GoVal.vmap
      [("context", GoVal.vmap [("container", GoVal.vstr "ghost")]),
       ("message", GoVal.vstr "ContainerStart")])]) = .ok none :=
  ⟨watchHandler_behavior.2.2.2.2.1 webForwarder
    [("metadata", GoVal.vmap [("context", GoVal.vmap [("container", GoVal.vstr "web")]),
       ("message", GoVal.vint 7)])]
    [("context", GoVal.vmap [("container", GoVal.vstr "web")]),
     ("message", GoVal.vint 7)]
    [("container", GoVal.vstr "web")] "web" [webMapping] (GoVal.vint 7)
    rfl rfl rfl rfl rfl rfl,
   watchHandler_behavior.2.2.2.2.2.2.1 webForwarder
    [("metadata", GoVal.vmap [("context", GoVal.vmap [("container", GoVal.vstr "ghost")]),
       ("message", GoVal.vstr "ContainerStart")])]
    [("context", GoVal.vmap [("container", GoVal.vstr "ghost")]),
     ("message", GoVal.vstr "ContainerStart")]
    [("container", GoVal.vstr "ghost")] "ghost" rfl rfl rfl rfl⟩

/- C5 kit: parsed host ports contain no colon, and key encoding is injective
on parsed pairs. -/

theorem digitsAux_digits : ∀ (l : List Char) (acc n : Nat), digitsAux acc l = some n →
    ∀ ch ∈ l, ch.isDigit = true := by
  intro l
  induction l with
  | nil => intro acc n h ch hch; simp at hch
  | cons a rest ih =>
    intro acc n h ch hch
    simp only [digitsAux] at h
    by_cases hd : a.isDigit = true
    · rw [if_pos hd] at h
      rcases List.mem_cons.1 hch with rfl | h2
      · exact hd
      · exact ih _ _ h ch h2
    · rw [if_neg hd] at h
      exact absurd h (by simp)

theorem parseDigits_digits {l : List Char} {n : Nat} (h : parseDigits l = some n) :
    ∀ ch ∈ l, ch.isDigit = true := by
  cases l with
  | nil => intro ch hch; simp at hch
  | cons a rest => exact digitsAux_digits (a :: rest) 0 n h

theorem goAtoi_no_colon {h : String} (hs : (goAtoi h).isSome = true) : ':' ∉ h.data := by
  intro hmem
  rw [goAtoi] at hs
  cases hd : h.data with
  | nil => rw [hd] at hmem; exact absurd hmem (by simp)
  | cons a rest =>
    simp only [hd] at hs
    rw [hd] at hmem
    rcases List.mem_cons.1 hmem with rfl | hrest
    · rw [if_neg (by decide), if_neg (by decide)] at hs
      have hdz : parseDigits (':' :: rest) = none := by
        show digitsAux 0 (':' :: rest) = none
        have hnd : (':'.isDigit) = false := by decide
        simp [digitsAux, hnd]
      rw [hdz] at hs
      exact absurd hs (by simp)
    · by_cases ha1 : a = '+'
      · rw [if_pos ha1] at hs
        cases hpd : parseDigits rest with
        | none => rw [hpd] at hs; exact absurd hs (by simp)
        | some n => exact absurd (parseDigits_digits hpd ':' hrest) (by decide)
      · rw [if_neg ha1] at hs
        by_cases ha2 : a = '-'
        · rw [if_pos ha2] at hs
          cases hpd : parseDigits rest with
          | none => rw [hpd] at hs; exact absurd hs (by simp)
          | some n => exact absurd (parseDigits_digits hpd ':' hrest) (by decide)
        · rw [if_neg ha2] at hs
          cases hpd : parseDigits (a :: rest) with
          | none => rw [hpd] at hs; exact absurd hs (by simp)
          | some n =>
            exact absurd (parseDigits_digits hpd ':' (List.mem_cons_of_mem _ hrest)) (by decide)

theorem colon_split {c : Char} : ∀ {a1 a2 b1 b2 : List Char}, c ∉ a1 → c ∉ a2 →
    a1 ++ c :: b1 = a2 ++ c :: b2 → a1 = a2 ∧ b1 = b2 := by
  intro a1
  induction a1 with
  | nil =>
    intro a2 b1 b2 h1 h2 heq
    cases a2 with
    | nil =>
      simp only [List.nil_append] at heq
      injection heq with h3 h4
      exact ⟨rfl, h4⟩
    | cons x xs =>
      simp only [List.nil_append, List.cons_append] at heq
      injection heq with h3 h4
      cases h3
      exact absurd (List.mem_cons_self _ _) h2
  | cons y ys ih =>
    intro a2 b1 b2 h1 h2 heq
    cases a2 with
    | nil =>
      simp only [List.nil_append, List.cons_append] at heq
      injection heq with h3 h4
      cases h3
      exact absurd (List.mem_cons_self _ _) h1
    | cons x xs =>
      simp only [List.cons_append] at heq
      injection heq with h3 h4
      subst h3
      have h1a : c ∉ ys := fun hm => h1 (List.mem_cons_of_mem _ hm)
      have h2a : c ∉ xs := fun hm => h2 (List.mem_cons_of_mem _ hm)
      obtain ⟨ha, hb⟩ := ih h1a h2a h4
      exact ⟨by rw [ha], hb⟩

theorem encodePair_inj {q pr : String × String} (hq : (goAtoi q.2).isSome = true)
    (hp : (goAtoi pr.2).isSome = true) (h : encodePair q = encodePair pr) : q = pr := by
  obtain ⟨p1, h1⟩ := q
  obtain ⟨p2, h2⟩ := pr
  simp only [encodePair] at h
  have hd := congrArg String.data h
  rw [str_data_append, str_data_append, str_data_append, str_data_append] at hd
  rw [show (":" : String).data = [':'] from rfl] at hd
  have hd2 : p1.data ++ ':' :: h1.data = p2.data ++ ':' :: h2.data := by
    rw [List.append_assoc, List.append_assoc] at hd
    simpa using hd
  have hrev := congrArg List.reverse hd2
  rw [List.reverse_append, List.reverse_append, List.reverse_cons, List.reverse_cons,
      List.append_assoc, List.append_assoc] at hrev
  rw [List.singleton_append, List.singleton_append] at hrev
  have hnc1 : ':' ∉ h1.data.reverse := fun hm => goAtoi_no_colon hq (List.mem_reverse.1 hm)
  have hnc2 : ':' ∉ h2.data.reverse := fun hm => goAtoi_no_colon hp (List.mem_reverse.1 hm)
  obtain ⟨ha, hb⟩ := colon_split hnc1 hnc2 hrev
  have hh : h1 = h2 := str_data_inj (by
    have h5 := congrArg List.reverse ha
    rwa [List.reverse_reverse, List.reverse_reverse] at h5)
  have hp12 : p1 = p2 := str_data_inj (by
    have h5 := congrArg List.reverse hb
    rwa [List.reverse_reverse, List.reverse_reverse] at h5)
  rw [hh, hp12]

/- C5 kit: keys are the encoded pairs, and encoding preserves duplicate
freedom over parsed pairs. -/

theorem portKeys_eq_pairs (protocol : String) (ports : List (String × Int)) :
    portKeys protocol ports = (portPairs protocol ports).map encodePair := by
  rw [portKeys, portPairs, List.map_map]
  rfl

theorem mappingKeys_eq_pairs : ∀ (pfs : List PortMappings),
    mappingKeys pfs = (mappingPairs pfs).map encodePair := by
  intro pfs
  induction pfs with
  | nil => rfl
  | cons pf rest ih =>
    simp only [mappingKeys, mappingPairs, List.map_append, portKeys_eq_pairs, ih]

theorem forwardKeys_eq_pairs : ∀ (l : List (String × List PortMappings)),
    forwardKeys l = (forwardPairs l).map encodePair := by
  intro l
  induction l with
  | nil => rfl
  | cons wp rest ih =>
    obtain ⟨w, pfs⟩ := wp
    simp only [forwardKeys, forwardPairs, List.map_append, mappingKeys_eq_pairs, ih]

theorem mem_portPairs {protocol : String} {ports : List (String × Int)} {pr : String × String}
    (h : pr ∈ portPairs protocol ports) : ∃ p ∈ ports, pr = (protocol, p.1) := by
  obtain ⟨p, hp, heq⟩ := List.mem_map.1 h
  exact ⟨p, hp, heq.symm⟩

theorem mem_mappingPairs {pr : String × String} : ∀ {pfs : List PortMappings},
    pr ∈ mappingPairs pfs → ∃ pf ∈ pfs, pr ∈ portPairs pf.protocol pf.ports := by
  intro pfs
  induction pfs with
  | nil => intro h; simp [mappingPairs] at h
  | cons pf rest ih =>
    intro h
    rcases List.mem_append.1 h with h1 | h2
    · exact ⟨pf, List.mem_cons_self _ _, h1⟩
    · obtain ⟨pf2, hpf2, hpr⟩ := ih h2
      exact ⟨pf2, List.mem_cons_of_mem _ hpf2, hpr⟩

theorem mem_forwardPairs {pr : String × String} : ∀ {l : List (String × List PortMappings)},
    pr ∈ forwardPairs l → ∃ wp ∈ l, pr ∈ mappingPairs wp.2 := by
  intro l
  induction l with
  | nil => intro h; simp [forwardPairs] at h
  | cons wp rest ih =>
    obtain ⟨w, pfs⟩ := wp
    intro h
    rcases List.mem_append.1 h with h1 | h2
    · exact ⟨(w, pfs), List.mem_cons_self _ _, h1⟩
    · obtain ⟨wp2, hwp2, hpr⟩ := ih h2
      exact ⟨wp2, List.mem_cons_of_mem _ hwp2, hpr⟩

theorem allPairs_parse {c : Config} (h : GoodConfig c) :
    ∀ pr ∈ allPairs c, (goAtoi pr.2).isSome = true := by
  intro pr hpr
  obtain ⟨wp, hwp, hpr2⟩ := mem_forwardPairs hpr
  obtain ⟨pf, hpf, hpr3⟩ := mem_mappingPairs hpr2
  obtain ⟨p, hp, rfl⟩ := mem_portPairs hpr3
  exact (h wp hwp pf hpf).2 p hp

theorem nodup_map_encode : ∀ {l : List (String × String)},
    (∀ pr ∈ l, (goAtoi pr.2).isSome = true) → ((l.map encodePair).Nodup ↔ l.Nodup) := by
  intro l
  induction l with
  | nil => intro _; simp
  | cons pr rest ih =>
    intro hall
    simp only [List.map_cons, List.nodup_cons]
    have hall2 : ∀ q ∈ rest, (goAtoi q.2).isSome = true :=
      fun q hq => hall q (List.mem_cons_of_mem _ hq)
    rw [ih hall2]
    constructor
    · rintro ⟨hnp, hnd⟩
      exact ⟨fun hmem => hnp (List.mem_map.2 ⟨pr, hmem, rfl⟩), hnd⟩
    · rintro ⟨hnp, hnd⟩
      refine ⟨fun hmem => ?_, hnd⟩
      obtain ⟨q, hq, heq⟩ := List.mem_map.1 hmem
      have hqp : q = pr :=
        encodePair_inj (hall2 q hq) (hall pr (List.mem_cons_self _ _)) heq
      exact hnp (hqp ▸ hq)

/- C5: characterization of the three Validate loops by the key lists. -/

theorem portKeys_cons (protocol hPort : String) (cp : Int) (rest : List (String × Int)) :
    portKeys protocol ((hPort, cp) :: rest) =
      (protocol ++ ":" ++ hPort) :: portKeys protocol rest := rfl

theorem mappingKeys_cons (pf : PortMappings) (rest : List PortMappings) :
    mappingKeys (pf :: rest) = portKeys pf.protocol pf.ports ++ mappingKeys rest := rfl

theorem forwardKeys_cons (w : String) (pfs : List PortMappings)
    (rest : List (String × List PortMappings)) :
    forwardKeys ((w, pfs) :: rest) = mappingKeys pfs ++ forwardKeys rest := rfl

theorem cpl_ok_iff (container : String) : ∀ (ports : List (String × Int)) (seen : List String)
    (pf : PortMappings),
    exOk (checkPortsLoop container seen pf ports) = true ↔
      ((∀ p ∈ ports, (goAtoi p.1).isSome = true) ∧
       (portKeys pf.protocol ports).Nodup ∧
       ∀ k ∈ portKeys pf.protocol ports, k ∉ seen) := by
  intro ports
  induction ports with
  | nil =>
    intro seen pf
    simp [checkPortsLoop, exOk, portKeys]
  | cons p rest ih =>
    intro seen pf
    obtain ⟨hPort, cPort⟩ := p
    cases hatoi : goAtoi hPort with
    | none =>
      simp only [checkPortsLoop, hatoi]
      constructor
      · intro hbad
        simp [exOk] at hbad
      · rintro ⟨hall, -, -⟩
        have h2 := hall (hPort, cPort) (List.mem_cons_self _ _)
        simp [hatoi] at h2
    | some n =>
      simp only [checkPortsLoop, hatoi]
      by_cases hmem : (pf.protocol ++ ":" ++ hPort) ∈ seen
      · rw [if_pos hmem]
        constructor
        · intro hbad
          simp [exOk] at hbad
        · rintro ⟨-, -, hfresh⟩
          have hkey : (pf.protocol ++ ":" ++ hPort) ∈
              portKeys pf.protocol ((hPort, cPort) :: rest) := by
            rw [portKeys_cons]
            exact List.mem_cons_self _ _
          exact absurd hmem (hfresh _ hkey)
      · rw [if_neg hmem]
        rw [ih]
        rw [portKeys_cons, List.forall_mem_cons, List.nodup_cons, List.forall_mem_cons]
        constructor
        · rintro ⟨hparse, hnodup, hfresh⟩
          refine ⟨⟨?_, hparse⟩, ⟨?_, hnodup⟩, hmem, ?_⟩
          · simp [hatoi]
          · intro hbad
            exact (hfresh _ hbad) (List.mem_cons_self _ _)
          · intro k hk hks
            exact (hfresh k hk) (List.mem_cons_of_mem _ hks)
        · rintro ⟨⟨-, hparse⟩, ⟨hnotin, hnodup⟩, -, hfresh⟩
          refine ⟨hparse, hnodup, ?_⟩
          intro k hk hkmem
          rcases List.mem_cons.1 hkmem with heq | hk2
          · exact hnotin (heq ▸ hk)
          · exact (hfresh k hk) hk2

theorem cpl_ok_out (container : String) : ∀ (ports : List (String × Int)) (seen : List String)
    (pf : PortMappings) (seen1 : List String),
    checkPortsLoop container seen pf ports = .ok seen1 →
    ∀ x, x ∈ seen1 ↔ (x ∈ portKeys pf.protocol ports ∨ x ∈ seen) := by
  intro ports
  induction ports with
  | nil =>
    intro seen pf seen1 h x
    simp only [checkPortsLoop] at h
    injection h with h1
    subst h1
    simp [portKeys]
  | cons p rest ih =>
    intro seen pf seen1 h x
    obtain ⟨hPort, cPort⟩ := p
    cases hatoi : goAtoi hPort with
    | none =>
      simp only [checkPortsLoop, hatoi] at h
      exact absurd h (by simp)
    | some n =>
      simp only [checkPortsLoop, hatoi] at h
      by_cases hmem : (pf.protocol ++ ":" ++ hPort) ∈ seen
      · rw [if_pos hmem] at h
        exact absurd h (by simp)
      · rw [if_neg hmem] at h
        have hx := ih ((pf.protocol ++ ":" ++ hPort) :: seen) { pf with name := container }
          seen1 h x
        rw [hx, portKeys_cons]
        simp only [List.mem_cons]
        constructor
        · rintro (hk | rfl | hs)
          · exact Or.inl (Or.inr hk)
          · exact Or.inl (Or.inl rfl)
          · exact Or.inr hs
        · rintro ((rfl | hk) | hs)
          · exact Or.inr (Or.inl rfl)
          · exact Or.inl hk
          · exact Or.inr (Or.inr hs)

theorem cm_cons_empty (container : String) (seen : List String) (pf : PortMappings)
    (rest : List PortMappings) (hemp : pf.ports.isEmpty = true) :
    checkMappings container seen (pf :: rest) =
      .error ("No ports provided for container " ++ container) := by
  simp only [checkMappings, if_pos hemp]

theorem cm_cons_error (container : String) (seen : List String) (pf : PortMappings)
    (rest : List PortMappings) (e : String) (hemp : ¬ pf.ports.isEmpty = true)
    (h : checkPortsLoop container seen pf pf.ports = .error e) :
    checkMappings container seen (pf :: rest) = .error e := by
  simp only [checkMappings, if_neg hemp, h]

theorem cm_cons_ok (container : String) (seen : List String) (pf : PortMappings)
    (rest : List PortMappings) (seen1 : List String) (hemp : ¬ pf.ports.isEmpty = true)
    (h : checkPortsLoop container seen pf pf.ports = .ok seen1) :
    checkMappings container seen (pf :: rest) = checkMappings container seen1 rest := by
  simp only [checkMappings, if_neg hemp, h]

theorem cm_ok_out (container : String) : ∀ (pfs : List PortMappings) (seen seen1 : List String),
    checkMappings container seen pfs = .ok seen1 →
    ∀ x, x ∈ seen1 ↔ (x ∈ mappingKeys pfs ∨ x ∈ seen) := by
  intro pfs
  induction pfs with
  | nil =>
    intro seen seen1 h x
    simp only [checkMappings] at h
    injection h with h1
    subst h1
    simp [mappingKeys]
  | cons pf rest ih =>
    intro seen seen1 h x
    by_cases hemp : pf.ports.isEmpty = true
    · rw [cm_cons_empty container seen pf rest hemp] at h
      exact absurd h (by simp)
    · cases hcp : checkPortsLoop container seen pf pf.ports with
      | error e =>
        rw [cm_cons_error container seen pf rest e hemp hcp] at h
        exact absurd h (by simp)
      | ok seenA =>
        rw [cm_cons_ok container seen pf rest seenA hemp hcp] at h
        have hx := ih seenA seen1 h x
        have hA := cpl_ok_out container pf.ports seen pf seenA hcp x
        rw [hx, hA, mappingKeys_cons]
        constructor
        · rintro (hmk | hpk | hs)
          · exact Or.inl (List.mem_append.2 (Or.inr hmk))
          · exact Or.inl (List.mem_append.2 (Or.inl hpk))
          · exact Or.inr hs
        · rintro (hmk | hs)
          · rcases List.mem_append.1 hmk with h1 | h2
            · exact Or.inr (Or.inl h1)
            · exact Or.inl h2
          · exact Or.inr (Or.inr hs)

theorem cm_ok_iff (container : String) : ∀ (pfs : List PortMappings) (seen : List String),
    exOk (checkMappings container seen pfs) = true ↔
      ((∀ pf ∈ pfs, goodPorts pf) ∧ (mappingKeys pfs).Nodup ∧
       ∀ k ∈ mappingKeys pfs, k ∉ seen) := by
  intro pfs
  induction pfs with
  | nil =>
    intro seen
    simp [checkMappings, exOk, mappingKeys]
  | cons pf rest ih =>
    intro seen
    by_cases hemp : pf.ports.isEmpty = true
    · rw [cm_cons_empty container seen pf rest hemp]
      constructor
      · intro hbad
        simp [exOk] at hbad
      · rintro ⟨hgood, -, -⟩
        have h1 := (hgood pf (List.mem_cons_self _ _)).1
        have hnil : pf.ports = [] := by
          cases hp : pf.ports with
          | nil => rfl
          | cons a l =>
            rw [hp] at hemp
            exact absurd hemp (by simp)
        exact absurd hnil h1
    · cases hcp : checkPortsLoop container seen pf pf.ports with
      | error e =>
        rw [cm_cons_error container seen pf rest e hemp hcp]
        have hno : ¬((∀ p ∈ pf.ports, (goAtoi p.1).isSome = true) ∧
            (portKeys pf.protocol pf.ports).Nodup ∧
            ∀ k ∈ portKeys pf.protocol pf.ports, k ∉ seen) := by
          rw [← cpl_ok_iff container pf.ports seen pf, hcp]
          simp [exOk]
        constructor
        · intro hbad
          simp [exOk] at hbad
        · rintro ⟨hgood, hnodup, hfresh⟩
          refine absurd ⟨?_, ?_, ?_⟩ hno
          · exact (hgood pf (List.mem_cons_self _ _)).2
          · rw [mappingKeys_cons, List.nodup_append] at hnodup
            exact hnodup.1
          · intro k hk
            exact hfresh k (by rw [mappingKeys_cons]; exact List.mem_append.2 (Or.inl hk))
      | ok seenA =>
        rw [cm_cons_ok container seen pf rest seenA hemp hcp]
        rw [ih]
        have hcond := (cpl_ok_iff container pf.ports seen pf).1 (by rw [hcp]; rfl)
        obtain ⟨hparse, hnodupPk, hfreshPk⟩ := hcond
        have hout := cpl_ok_out container pf.ports seen pf seenA hcp
        rw [mappingKeys_cons]
        constructor
        · rintro ⟨hgoodR, hnodupR, hfreshR⟩
          refine ⟨?_, ?_, ?_⟩
          · intro pf2 hpf2
            rcases List.mem_cons.1 hpf2 with rfl | h2
            · refine ⟨?_, hparse⟩
              intro hnil
              rw [hnil] at hemp
              exact hemp rfl
            · exact hgoodR pf2 h2
          · rw [List.nodup_append]
            refine ⟨hnodupPk, hnodupR, ?_⟩
            intro k hk1 hk2
            exact (hfreshR k hk2) ((hout k).2 (Or.inl hk1))
          · intro k hk
            rcases List.mem_append.1 hk with hk1 | hk2
            · exact hfreshPk k hk1
            · intro hks
              exact (hfreshR k hk2) ((hout k).2 (Or.inr hks))
        · rintro ⟨hgood, hnodup, hfresh⟩
          rw [List.nodup_append] at hnodup
          obtain ⟨-, hnodupR, hdisj⟩ := hnodup
          refine ⟨fun pf2 h2 => hgood pf2 (List.mem_cons_of_mem _ h2), hnodupR, ?_⟩
          intro k hk hkA
          rcases (hout k).1 hkA with hk1 | hk2
          · exact (hdisj hk1) hk
          · exact (hfresh k (List.mem_append.2 (Or.inr hk))) hk2

theorem cf_cons_error (seen : List String) (container : String) (pfs : List PortMappings)
    (rest : List (String × List PortMappings)) (e : String)
    (h : checkMappings container seen pfs = .error e) :
    checkForwards seen ((container, pfs) :: rest) = .error e := by
  simp only [checkForwards, h]

theorem cf_cons_ok (seen : List String) (container : String) (pfs : List PortMappings)
    (rest : List (String × List PortMappings)) (seen1 : List String)
    (h : checkMappings container seen pfs = .ok seen1) :
    checkForwards seen ((container, pfs) :: rest) = checkForwards seen1 rest := by
  simp only [checkForwards, h]

theorem cf_ok_iff : ∀ (l : List (String × List PortMappings)) (seen : List String),
    exOk (checkForwards seen l) = true ↔
      ((∀ wp ∈ l, ∀ pf ∈ wp.2, goodPorts pf) ∧ (forwardKeys l).Nodup ∧
       ∀ k ∈ forwardKeys l, k ∉ seen) := by
  intro l
  induction l with
  | nil =>
    intro seen
    simp [checkForwards, exOk, forwardKeys]
  | cons wp rest ih =>
    intro seen
    obtain ⟨container, pfs⟩ := wp
    cases hcm : checkMappings container seen pfs with
    | error e =>
      rw [cf_cons_error seen container pfs rest e hcm]
      have hno : ¬((∀ pf ∈ pfs, goodPorts pf) ∧ (mappingKeys pfs).Nodup ∧
          ∀ k ∈ mappingKeys pfs, k ∉ seen) := by
        rw [← cm_ok_iff container pfs seen, hcm]
        simp [exOk]
      constructor
      · intro hbad
        simp [exOk] at hbad
      · rintro ⟨hgood, hnodup, hfresh⟩
        refine absurd ⟨?_, ?_, ?_⟩ hno
        · exact hgood (container, pfs) (List.mem_cons_self _ _)
        · rw [forwardKeys_cons, List.nodup_append] at hnodup
          exact hnodup.1
        · intro k hk
          exact hfresh k (by rw [forwardKeys_cons]; exact List.mem_append.2 (Or.inl hk))
    | ok seenA =>
      rw [cf_cons_ok seen container pfs rest seenA hcm, ih]
      have hcond := (cm_ok_iff container pfs seen).1 (by rw [hcm]; rfl)
      obtain ⟨hgoodPf, hnodupMk, hfreshMk⟩ := hcond
      have hout := cm_ok_out container pfs seen seenA hcm
      rw [forwardKeys_cons]
      constructor
      · rintro ⟨hgoodR, hnodupR, hfreshR⟩
        refine ⟨?_, ?_, ?_⟩
        · intro wp2 hwp2
          rcases List.mem_cons.1 hwp2 with rfl | h2
          · exact hgoodPf
          · exact hgoodR wp2 h2
        · rw [List.nodup_append]
          refine ⟨hnodupMk, hnodupR, ?_⟩
          intro k hk1 hk2
          exact (hfreshR k hk2) ((hout k).2 (Or.inl hk1))
        · intro k hk
          rcases List.mem_append.1 hk with hk1 | hk2
          · exact hfreshMk k hk1
          · intro hks
            exact (hfreshR k hk2) ((hout k).2 (Or.inr hks))
      · rintro ⟨hgood, hnodup, hfresh⟩
        rw [List.nodup_append] at hnodup
        obtain ⟨-, hnodupR, hdisj⟩ := hnodup
        refine ⟨fun wp2 h2 => hgood wp2 (List.mem_cons_of_mem _ h2), hnodupR, ?_⟩
        intro k hk hkA
        rcases (hout k).1 hkA with hk1 | hk2
        · exact (hdisj hk1) hk
        · exact (hfresh k (List.mem_append.2 (Or.inr hk))) hk2

theorem validate_fst (c : Config) : (c.Validate).1 = exOk (checkForwards [] c.forwards) := by
  cases h : checkForwards [] c.forwards with
  | ok seen => simp [Config.Validate, h, exOk]
  | error e => simp [Config.Validate, h, exOk]

theorem validate_keys_iff (c : Config) :
    (c.Validate).1 = true ↔ (GoodConfig c ∧ (forwardKeys c.forwards).Nodup) := by
  rw [validate_fst, cf_ok_iff c.forwards []]
  constructor
  · rintro ⟨hgood, hnodup, -⟩
    exact ⟨hgood, hnodup⟩
  · rintro ⟨hgood, hnodup⟩
    refine ⟨hgood, hnodup, ?_⟩
    intro k hk
    exact List.not_mem_nil k

/-- C5 theorem: Validate accepts exactly the configurations in which every
port mapping has a non-empty port set, every host-port key parses as an
integer, and no (protocol, host port) pair occurs twice across the entire
configuration; a successful Validate additionally returns a nil error and a
failing Validate returns a non-nil error. -/
theorem validate_ok_iff (c : Config) :
    ((c.Validate).1 = true ↔ ValidSpec c) ∧
    ((c.Validate).1 = true → (c.Validate).2 = none) ∧
    ((c.Validate).1 = false → (c.Validate).2.isSome = true) := by
  have hfk : forwardKeys c.forwards = (allPairs c).map encodePair :=
    forwardKeys_eq_pairs c.forwards
  refine ⟨?_, ?_, ?_⟩
  · rw [validate_keys_iff, hfk]
    constructor
    · rintro ⟨hgood, hnodup⟩
      exact ⟨hgood, (nodup_map_encode (allPairs_parse hgood)).1 hnodup⟩
    · intro hv
      exact ⟨hv.1, (nodup_map_encode (allPairs_parse hv.1)).2 hv.2⟩
  · intro h
    cases hcf : checkForwards [] c.forwards with
    | ok seen => simp [Config.Validate, hcf]
    | error e => simp [Config.Validate, hcf] at h
  · intro h
    cases hcf : checkForwards [] c.forwards with
    | ok seen => simp [Config.Validate, hcf] at h
    | error e => simp [Config.Validate, hcf]

/-- Witness for the C5 theorem: the concrete web config is valid in the
sense of the specification, and Validate accepts it. -/
theorem validate_ok_iff_witness : ValidSpec webConfig ∧ (webConfig.Validate).1 = true :=
  ⟨by decide, (validate_ok_iff webConfig).1.mpr (by decide)⟩

end LxdPortForward
